import Mathlib

/-!
Shallow embedding of the agent orchestration core of the coinbase-agent
repository (src/src/agent.ts together with the configuration defaults in
src/src/config.ts), and proofs of the specified properties.

Modelling conventions:
* JavaScript values that flow through the orchestrator (tool arguments and
  raw tool results) are modelled by the JSON universe `JsValue`
  (null, undefined, booleans, exact decimal numbers, strings, arrays,
  objects).  IEEE-754 float arithmetic on the display path
  (`parseFloat(...).toFixed(4)`, `Number(bigint)/1e18`) is modelled by exact
  decimal arithmetic with round-half-away-from-zero; no verified claim
  depends on the rounded digits.  BigInt values and cyclic objects do not
  occur inside tool results in this model.
* JavaScript exceptions are modelled by `Except String`; a `try/catch`
  becomes a `match` on the `Except` value.  Operations that cannot throw are
  plain functions.
* The language-model client and the wallet tools are an environment `Env`:
  the model is a total function from the message history to a response, the
  summarization model may fail (`Except`), each registered tool may fail
  (`Except`), and the wallet balance probe is an optional wei amount.
* The iteration loop additionally returns ghost observability data
  (`Ghost`): which tools were actually invoked, how many model calls were
  made, and the value of the pending-transaction slot at every moment a new
  pending transaction was frozen.  The ghost data does not influence any
  computed message or state.
-/

mutual

/-- JSON-universe value, the model of the JavaScript values handled by the
agent (tool arguments, parsed tool results).  Numbers are exact decimals
`m * 10 ^ e`; arrays and objects carry their own list types so that all
recursion over values is structural. -/
inductive JsValue where
  | vNull : JsValue
  | vUndefined : JsValue
  | vBool : Bool → JsValue
  | vNum : Int → Int → JsValue
  | vStr : String → JsValue
  | vArr : JsArr → JsValue
  | vObj : JsObj → JsValue

/-- Array of modelled values. -/
inductive JsArr where
  | nil : JsArr
  | cons : JsValue → JsArr → JsArr

/-- Object: ordered association list of modelled values. -/
inductive JsObj where
  | nil : JsObj
  | cons : String → JsValue → JsObj → JsObj

end

/-- Build a modelled array from a list of values. -/
def JsArr.ofList : List JsValue → JsArr
  | [] => .nil
  | v :: vs => .cons v (JsArr.ofList vs)

/-- Build a modelled object from an association list. -/
def JsObj.ofList : List (String × JsValue) → JsObj
  | [] => .nil
  | (k, v) :: fs => .cons k v (JsObj.ofList fs)

/-- JavaScript whitespace test (the common characters; the model of the
character class used by `trim`, `\s` and JSON whitespace). -/
def isJsWs (c : Char) : Bool :=
  c = ' ' || c = '\t' || c = '\n' || c = '\r'

/-- Drop leading JavaScript whitespace from a character list. -/
def dropLeadWs (cs : List Char) : List Char :=
  cs.dropWhile isJsWs

/-- Model of `s.trim().startsWith('\x7b') || s.trim().startsWith('[')`:
the first non-whitespace character is an opening brace or bracket. -/
def trimStartsBraceOrBracket (s : String) : Bool :=
  match dropLeadWs s.data with
  | '\x7b' :: _ => true
  | '[' :: _ => true
  | _ => false

/-- Prefix test on character lists. -/
def leadingMatch : List Char → List Char → Bool
  | [], _ => true
  | _ :: _, [] => false
  | p :: ps, c :: cs => p = c && leadingMatch ps cs

/-- Model of JavaScript `String.prototype.includes`. -/
def containsSubstrCharList (pat : List Char) : List Char → Bool
  | [] => leadingMatch pat []
  | c :: cs => leadingMatch pat (c :: cs) || containsSubstrCharList pat cs

/-- Model of `s.includes(pat)`. -/
def jsIncludes (s pat : String) : Bool :=
  containsSubstrCharList pat.data s.data

/-- Hexadecimal digit test, the character class `[a-fA-F0-9]`. -/
def isHexDigitChar (c : Char) : Bool :=
  c.isDigit || ('a' ≤ c && c ≤ 'f') || ('A' ≤ c && c ≤ 'F')

/-- The character class `[\d.]`. -/
def isDigitOrDot (c : Char) : Bool :=
  c.isDigit || c = '.'

/-- Last-wins association lookup, the model of JavaScript object property
lookup where a later duplicate key shadows an earlier one. -/
def lookupLast : JsObj → String → Option JsValue
  | .nil, _ => none
  | .cons k' v rest, k =>
    match lookupLast rest k with
    | some w => some w
    | none => if k' = k then some v else none

/-- JavaScript truthiness of a modelled value. -/
def truthy : JsValue → Bool
  | .vNull => false
  | .vUndefined => false
  | .vBool b => b
  | .vNum m _ => m ≠ 0
  | .vStr s => s ≠ ""
  | .vArr _ => true
  | .vObj _ => true

/-- Model of the JavaScript `||` operator on values. -/
def jsOr (a b : JsValue) : JsValue :=
  if truthy a then a else b

/-- Model of `toolCall.args || \x7b\x7d`: falsy arguments are replaced by an
empty object. -/
def argsOrEmpty (a : JsValue) : JsValue :=
  jsOr a (.vObj .nil)

/-- Property access `v[k]` where the receiver may be `null`/`undefined`
(which throws in JavaScript); missing keys and non-object receivers give
`undefined`. -/
def jsGetE (v : JsValue) (k : String) : Except String JsValue :=
  match v with
  | .vNull => .error ("Cannot read properties of null (reading " ++ k ++ ")")
  | .vUndefined => .error ("Cannot read properties of undefined (reading " ++ k ++ ")")
  | .vObj fields => .ok ((lookupLast fields k).getD .vUndefined)
  | _ => .ok .vUndefined

/-- Property access at call sites where the receiver is never
`null`/`undefined` (the agent guards such receivers with `|| \x7b\x7d`);
on those impossible receivers we return `undefined`. -/
def jsGetD (v : JsValue) (k : String) : JsValue :=
  match v with
  | .vObj fields => (lookupLast fields k).getD .vUndefined
  | _ => .vUndefined

/-- Digit characters of a natural number, most significant first. -/
def natDigitsAux : Nat → Nat → List Char
  | 0, _ => []
  | fuel + 1, n =>
    if n < 10 then [Char.ofNat (48 + n)]
    else natDigitsAux fuel (n / 10) ++ [Char.ofNat (48 + n % 10)]

/-- Decimal string of a natural number. -/
def natToDigits (n : Nat) : String :=
  if n = 0 then "0" else ⟨natDigitsAux (n + 1) n⟩

/-- Decimal string of an integer. -/
def intToDecString (m : Int) : String :=
  if m < 0 then "-" ++ natToDigits m.natAbs else natToDigits m.natAbs

/-- Strip trailing zero characters. -/
def stripTrailingZeros (cs : List Char) : List Char :=
  (cs.reverse.dropWhile (· = '0')).reverse

/-- Render the exact decimal `m * 10 ^ e` the way JavaScript prints the
corresponding number (plain decimal notation; the exponential notation JS
uses for very large/small magnitudes is not modelled — no verified claim
inspects such a value). -/
def decNumToString (m e : Int) : String :=
  if m = 0 then "0"
  else if 0 ≤ e then intToDecString (m * (10 : Int) ^ e.toNat)
  else
    let k := (-e).toNat
    let digits := (natToDigits m.natAbs).data
    let digits := if digits.length ≤ k then List.replicate (k + 1 - digits.length) '0' ++ digits else digits
    let intPart := digits.take (digits.length - k)
    let fracPart := stripTrailingZeros (digits.drop (digits.length - k))
    let core := if fracPart = [] then (⟨intPart⟩ : String) else (⟨intPart⟩ : String) ++ "." ++ ⟨fracPart⟩
    if m < 0 then "-" ++ core else core

/-- Integer division rounding half away from zero (used to model
`toFixed`, whose rounding on exact decimal inputs is half-away). -/
def roundHalfAwayDiv (m : Int) (d : Nat) : Int :=
  if m < 0 then -(((2 * m.natAbs + d) / (2 * d) : Nat) : Int)
  else ((2 * m.natAbs + d) / (2 * d) : Nat)

/-- Model of `x.toFixed(digits)` for the exact decimal `m * 10 ^ e`. -/
def decToFixed (m e : Int) (digits : Nat) : String :=
  let shift := e + digits
  let n : Int :=
    if 0 ≤ shift then m * (10 : Int) ^ shift.toNat
    else roundHalfAwayDiv m ((10 : Nat) ^ (-shift).toNat)
  let ds := (natToDigits n.natAbs).data
  let ds := if ds.length ≤ digits then List.replicate (digits + 1 - ds.length) '0' ++ ds else ds
  let intPart : String := ⟨ds.take (ds.length - digits)⟩
  let fracPart : String := ⟨ds.drop (ds.length - digits)⟩
  let core := if digits = 0 then intPart else intPart ++ "." ++ fracPart
  if n < 0 || (n = 0 && m < 0) then "-" ++ core else core

/-- Strict comparison `a > b` on exact decimals. -/
def decGt (ma ea mb eb : Int) : Bool :=
  if ea ≤ eb then ma > mb * (10 : Int) ^ (eb - ea).toNat
  else ma * (10 : Int) ^ (ea - eb).toNat > mb

/-- Value equality of exact decimals (JavaScript `===` on numbers). -/
def decValEq (ma ea mb eb : Int) : Bool :=
  if ea ≤ eb then ma = mb * (10 : Int) ^ (eb - ea).toNat
  else ma * (10 : Int) ^ (ea - eb).toNat = mb

/-- Parse an unsigned decimal digit run as a natural number. -/
def digitsToNat (cs : List Char) : Nat :=
  cs.foldl (fun acc c => acc * 10 + (c.toNat - 48)) 0

/-- Parse a full JavaScript numeric string (optional sign, digits, optional
fraction, optional exponent); `none` models NaN. -/
def parseNumFull (cs : List Char) : Option (Int × Int) :=
  let (sign, cs) : Int × List Char :=
    match cs with
    | '-' :: r => (-1, r)
    | '+' :: r => (1, r)
    | cs => (1, cs)
  let intDs := cs.takeWhile Char.isDigit
  let cs := cs.dropWhile Char.isDigit
  let (fracDs, cs) : List Char × List Char :=
    match cs with
    | '.' :: r => (r.takeWhile Char.isDigit, r.dropWhile Char.isDigit)
    | cs => ([], cs)
  if intDs = [] && fracDs = [] then none
  else
    let m : Int := sign * (digitsToNat (intDs ++ fracDs) : Int)
    let e : Int := -(fracDs.length : Int)
    match cs with
    | [] => some (m, e)
    | c :: r =>
      if c = 'e' || c = 'E' then
        let (esign, r) : Int × List Char :=
          match r with
          | '-' :: r2 => (-1, r2)
          | '+' :: r2 => (1, r2)
          | r => (1, r)
        let expDs := r.takeWhile Char.isDigit
        let r := r.dropWhile Char.isDigit
        if expDs = [] || r ≠ [] then none
        else some (m, e + esign * (digitsToNat expDs : Int))
      else none

/-- Model of JavaScript `Number(v)`; `none` models NaN.  Arrays and objects
are modelled as NaN (their JavaScript coercion through `toString` is not
needed on any verified path). -/
def jsToNumber (v : JsValue) : Option (Int × Int) :=
  match v with
  | .vNum m e => some (m, e)
  | .vNull => some (0, 0)
  | .vBool b => some (if b then 1 else 0, 0)
  | .vUndefined => none
  | .vStr s =>
    let cs := dropLeadWs s.data
    let cs := (cs.reverse.dropWhile isJsWs).reverse
    if cs = [] then some (0, 0) else parseNumFull cs
  | .vArr _ => none
  | .vObj _ => none

/-- Model of `parseFloat`: skip leading whitespace, optional sign, then the
longest prefix shaped `digits[.digits]`; `none` models NaN. -/
def parseFloatLead (s : String) : Option (Int × Int) :=
  let cs := dropLeadWs s.data
  let (sign, cs) : Int × List Char :=
    match cs with
    | '-' :: r => (-1, r)
    | '+' :: r => (1, r)
    | cs => (1, cs)
  let intDs := cs.takeWhile Char.isDigit
  let cs := cs.dropWhile Char.isDigit
  let fracDs : List Char :=
    match cs with
    | '.' :: r => r.takeWhile Char.isDigit
    | _ => []
  if intDs = [] && fracDs = [] then none
  else some (sign * (digitsToNat (intDs ++ fracDs) : Int), -(fracDs.length : Int))

/-- Model of `parseFloat(s).toFixed(4)` (`"NaN"` when the parse fails). -/
def parseFloatToFixed4 (s : String) : String :=
  match parseFloatLead s with
  | some (m, e) => decToFixed m e 4
  | none => "NaN"

/-- Parse the body of a JSON string literal (after the opening quote),
returning the decoded string and the remaining input.  Surrogate-pair
decoding of `\u` escapes is not modelled (an out-of-range or surrogate code
unit decodes to the replacement character `Char.ofNat` yields). -/
def parseStrLit : List Char → Option (String × List Char)
  | [] => none
  | '"' :: rest => some ("", rest)
  | '\\' :: rest =>
    match rest with
    | [] => none
    | esc :: r =>
      if esc = 'u' then
        match r with
        | a :: b :: c :: d :: r2 =>
          if isHexDigitChar a && isHexDigitChar b && isHexDigitChar c && isHexDigitChar d then
            let hv (ch : Char) : Nat :=
              if ch.isDigit then ch.toNat - 48
              else if 'a' ≤ ch && ch ≤ 'f' then ch.toNat - 87
              else ch.toNat - 55
            (parseStrLit r2).map (fun p => (⟨Char.ofNat (((hv a * 16 + hv b) * 16 + hv c) * 16 + hv d) :: p.1.data⟩, p.2))
          else none
        | _ => none
      else
        let mapped : Option Char :=
          if esc = '"' then some '"'
          else if esc = '\\' then some '\\'
          else if esc = '/' then some '/'
          else if esc = 'b' then some (Char.ofNat 8)
          else if esc = 'f' then some (Char.ofNat 12)
          else if esc = 'n' then some '\n'
          else if esc = 'r' then some '\r'
          else if esc = 't' then some '\t'
          else none
        match mapped with
        | some ch => (parseStrLit r).map (fun p => (⟨ch :: p.1.data⟩, p.2))
        | none => none
  | c :: rest => (parseStrLit rest).map (fun p => (⟨c :: p.1.data⟩, p.2))

/-- Parse a JSON scalar at the head of the (whitespace-stripped) input:
`true`, `false`, `null`, or a number. -/
def parseScalar (cs : List Char) : Option (JsValue × List Char) :=
  if leadingMatch ['t', 'r', 'u', 'e'] cs then some (.vBool true, cs.drop 4)
  else if leadingMatch ['f', 'a', 'l', 's', 'e'] cs then some (.vBool false, cs.drop 5)
  else if leadingMatch ['n', 'u', 'l', 'l'] cs then some (.vNull, cs.drop 4)
  else
    let (sign, cs1) : Int × List Char :=
      match cs with
      | '-' :: r => (-1, r)
      | cs => (1, cs)
    let intDs := cs1.takeWhile Char.isDigit
    let cs2 := cs1.dropWhile Char.isDigit
    if intDs = [] then none
    else
      let (fracDs, cs3) : List Char × List Char :=
        match cs2 with
        | '.' :: r =>
          let ds := r.takeWhile Char.isDigit
          if ds = [] then ([], cs2) else (ds, r.dropWhile Char.isDigit)
        | _ => ([], cs2)
      let m : Int := sign * (digitsToNat (intDs ++ fracDs) : Int)
      let e0 : Int := -(fracDs.length : Int)
      match cs3 with
      | c :: r =>
        if c = 'e' || c = 'E' then
          let (esign, r2) : Int × List Char :=
            match r with
            | '-' :: r3 => (-1, r3)
            | '+' :: r3 => (1, r3)
            | r => (1, r)
          let expDs := r2.takeWhile Char.isDigit
          if expDs = [] then none
          else some (.vNum m (e0 + esign * (digitsToNat expDs : Int)), r2.dropWhile Char.isDigit)
        else some (.vNum m e0, cs3)
      | [] => some (.vNum m e0, cs3)

mutual

/-- Recursive-descent JSON value parser (fuelled; the top-level entry point
supplies more fuel than any input can consume). -/
def parseValue : Nat → List Char → Option (JsValue × List Char)
  | 0, _ => none
  | fuel + 1, cs =>
    match dropLeadWs cs with
    | '\x7b' :: rest =>
      (match dropLeadWs rest with
       | '\x7d' :: r => some (.vObj .nil, r)
       | cs' => (parseMembers fuel cs').map (fun p => (.vObj p.1, p.2)))
    | '[' :: rest =>
      (match dropLeadWs rest with
       | ']' :: r => some (.vArr .nil, r)
       | cs' => (parseElems fuel cs').map (fun p => (.vArr p.1, p.2)))
    | '"' :: rest => (parseStrLit rest).map (fun p => (.vStr p.1, p.2))
    | cs' => parseScalar cs'

/-- Parse one or more `"key": value` members followed by `\x7d`. -/
def parseMembers : Nat → List Char → Option (JsObj × List Char)
  | 0, _ => none
  | fuel + 1, cs =>
    match dropLeadWs cs with
    | '"' :: r =>
      (match parseStrLit r with
       | none => none
       | some (k, r2) =>
         match dropLeadWs r2 with
         | ':' :: r3 =>
           (match parseValue fuel r3 with
            | none => none
            | some (v, r4) =>
              match dropLeadWs r4 with
              | ',' :: r5 => (parseMembers fuel r5).map (fun p => (.cons k v p.1, p.2))
              | '\x7d' :: r5 => some (.cons k v .nil, r5)
              | _ => none)
         | _ => none)
    | _ => none

/-- Parse one or more array elements followed by `]`. -/
def parseElems : Nat → List Char → Option (JsArr × List Char)
  | 0, _ => none
  | fuel + 1, cs =>
    match parseValue fuel cs with
    | none => none
    | some (v, r) =>
      match dropLeadWs r with
      | ',' :: r2 => (parseElems fuel r2).map (fun p => (.cons v p.1, p.2))
      | ']' :: r2 => some (.cons v .nil, r2)
      | _ => none

end

/-- Model of `JSON.parse`: parse a complete JSON text (allowing trailing
whitespace); `none` models the thrown `SyntaxError`. -/
def jsonParse (s : String) : Option JsValue :=
  match parseValue (s.data.length + 1) s.data with
  | some (v, rest) => if dropLeadWs rest = [] then some v else none
  | none => none

/-- `JSON.parse` with the thrown error made explicit. -/
def jsonParseE (s : String) : Except String JsValue :=
  match jsonParse s with
  | some v => .ok v
  | none => .error "Unexpected token in JSON"

/-- Escape a string for JSON output. -/
def escapeJsonChar (c : Char) : List Char :=
  if c = '"' then ['\\', '"']
  else if c = '\\' then ['\\', '\\']
  else if c = '\n' then ['\\', 'n']
  else if c = '\t' then ['\\', 't']
  else if c = '\r' then ['\\', 'r']
  else [c]

/-- Quote a string as a JSON string literal. -/
def quoteJsonString (s : String) : String :=
  "\"" ++ ⟨s.data.flatMap escapeJsonChar⟩ ++ "\""

/-- Indentation of `2 * n` spaces, as produced by `JSON.stringify(x, null, 2)`. -/
def indentSpaces (n : Nat) : String :=
  ⟨List.replicate (2 * n) ' '⟩

mutual

/-- Model of `JSON.stringify(v, null, 2)` at nesting level `lvl`: `undefined`
inside arrays renders as `null` (as JS does) and object members holding
`undefined` are skipped (as JS does). -/
def jsonStringify (lvl : Nat) : JsValue → String
  | .vNull => "null"
  | .vUndefined => "null"
  | .vBool b => if b then "true" else "false"
  | .vNum m e => decNumToString m e
  | .vStr s => quoteJsonString s
  | .vArr vs =>
    (match jsonStringifyElems (lvl + 1) vs with
     | [] => "[]"
     | e :: es =>
       "[\n" ++ indentSpaces (lvl + 1) ++
         String.intercalate (",\n" ++ indentSpaces (lvl + 1)) (e :: es) ++
         "\n" ++ indentSpaces lvl ++ "]")
  | .vObj fields =>
    match jsonStringifyFields (lvl + 1) fields with
    | [] => "\x7b\x7d"
    | e :: es =>
      "\x7b\n" ++ indentSpaces (lvl + 1) ++
        String.intercalate (",\n" ++ indentSpaces (lvl + 1)) (e :: es) ++
        "\n" ++ indentSpaces lvl ++ "\x7d"

/-- Stringify the elements of an array, one rendered string each. -/
def jsonStringifyElems (lvl : Nat) : JsArr → List String
  | .nil => []
  | .cons v vs => jsonStringify lvl v :: jsonStringifyElems lvl vs

/-- Stringify object members, skipping `undefined`-valued ones. -/
def jsonStringifyFields (lvl : Nat) : JsObj → List String
  | .nil => []
  | .cons k v fs =>
    match v with
    | .vUndefined => jsonStringifyFields lvl fs
    | v => (quoteJsonString k ++ ": " ++ jsonStringify lvl v) :: jsonStringifyFields lvl fs

end

/-- Model of `JSON.stringify(v, null, 2)` (top level). -/
def jsonStringifyPretty (v : JsValue) : String :=
  jsonStringify 0 v

mutual

/-- Model of the JavaScript string coercion used by template literals and
`String(v)`. -/
def jsToString : JsValue → String
  | .vNull => "null"
  | .vUndefined => "undefined"
  | .vBool b => if b then "true" else "false"
  | .vNum m e => decNumToString m e
  | .vStr s => s
  | .vArr elems => jsToStringArr elems
  | .vObj _ => "[object Object]"

/-- Coercion of an array: elements joined with commas; `null` and
`undefined` elements coerce to the empty string. -/
def jsToStringArr : JsArr → String
  | .nil => ""
  | .cons v .nil => jsToStringElem v
  | .cons v vs => jsToStringElem v ++ "," ++ jsToStringArr vs

/-- Array-element coercion inside `Array.prototype.toString`. -/
def jsToStringElem : JsValue → String
  | .vNull => ""
  | .vUndefined => ""
  | .vBool b => if b then "true" else "false"
  | .vNum m e => decNumToString m e
  | .vStr s => s
  | .vArr vs => jsToStringArr vs
  | .vObj _ => "[object Object]"

end

/-- Character comparison, optionally case-insensitive. -/
def charEqCI (ci : Bool) (a b : Char) : Bool :=
  if ci then a.toLower = b.toLower else a = b

/-- Match a literal pattern at the head of the input, returning the rest. -/
def matchLit (ci : Bool) : List Char → List Char → Option (List Char)
  | [], cs => some cs
  | _ :: _, [] => none
  | p :: ps, c :: cs => if charEqCI ci p c then matchLit ci ps cs else none

/-- One attempt of the regex `([\d.]+)\s*ETH` at the current position:
maximal `[\d.]+` run, then whitespace, then the literal `ETH`. -/
def numEthAttempt (ci : Bool) (cs : List Char) : Option (List Char) :=
  let run := cs.takeWhile isDigitOrDot
  if run = [] then none
  else
    match matchLit ci ['E', 'T', 'H'] (dropLeadWs (cs.dropWhile isDigitOrDot)) with
    | some _ => some run
    | none => none

/-- Leftmost match of `/([\d.]+)\s*ETH/` (optionally with the `i` flag),
returning capture group 1.  Shrinking the greedy `[\d.]+` run cannot help
(the exposed character is neither whitespace nor `E`), so only the maximal
run is attempted at each start position. -/
def findNumEth (ci : Bool) : List Char → Option String
  | [] => none
  | c :: cs =>
    match numEthAttempt ci (c :: cs) with
    | some run => some ⟨run⟩
    | none => findNumEth ci cs

/-- One attempt of `Native Balance:\s*([\d.]+)\s*ETH` (case-insensitive). -/
def nativeBalanceFlexAttempt (cs : List Char) : Option (List Char) :=
  match matchLit true "Native Balance:".data cs with
  | none => none
  | some rest =>
    let rest2 := dropLeadWs rest
    let run := rest2.takeWhile isDigitOrDot
    if run = [] then none
    else
      match matchLit true ['E', 'T', 'H'] (dropLeadWs (rest2.dropWhile isDigitOrDot)) with
      | some _ => some run
      | none => none

/-- Leftmost match of `/Native Balance:\s*([\d.]+)\s*ETH/i`, capture 1. -/
def findNativeBalanceFlex : List Char → Option String
  | [] => none
  | c :: cs =>
    match nativeBalanceFlexAttempt (c :: cs) with
    | some run => some ⟨run⟩
    | none => findNativeBalanceFlex cs

/-- One attempt of `Native Balance: ([\d.]+) ETH` (case-sensitive, literal
single spaces). -/
def nativeBalanceExactAttempt (cs : List Char) : Option (List Char) :=
  match matchLit false "Native Balance: ".data cs with
  | none => none
  | some rest =>
    let run := rest.takeWhile isDigitOrDot
    if run = [] then none
    else
      match matchLit false " ETH".data (rest.dropWhile isDigitOrDot) with
      | some _ => some run
      | none => none

/-- Leftmost match of `/Native Balance: ([\d.]+) ETH/`, capture 1. -/
def findNativeBalanceExact : List Char → Option String
  | [] => none
  | c :: cs =>
    match nativeBalanceExactAttempt (c :: cs) with
    | some run => some ⟨run⟩
    | none => findNativeBalanceExact cs

/-- One attempt of `0x[a-fA-F0-9]{n}` at the current position. -/
def hexAttempt (n : Nat) (cs : List Char) : Option (List Char) :=
  match cs with
  | '0' :: 'x' :: r =>
    let hx := r.take n
    if hx.length = n && hx.all isHexDigitChar then some ('0' :: 'x' :: hx) else none
  | _ => none

/-- Leftmost match of `/0x[a-fA-F0-9]{n}/`, the whole match. -/
def findHex (n : Nat) : List Char → Option String
  | [] => none
  | c :: cs =>
    match hexAttempt n (c :: cs) with
    | some m => some ⟨m⟩
    | none => findHex n cs

/-- One attempt of `(\d+\.?\d*)\s*ETH` at the current position.  With the
maximal `\d+` run consumed, the optional dot is taken when present (if the
tail then fails, the dotless variant also fails on the exposed dot), and
`\d*` is maximal (shrinking exposes a digit, which cannot start `\s*ETH`). -/
def amountEthAttempt (cs : List Char) : Option (List Char) :=
  let ds := cs.takeWhile Char.isDigit
  if ds = [] then none
  else
    let rest := cs.dropWhile Char.isDigit
    match rest with
    | '.' :: r2 =>
      let ds2 := r2.takeWhile Char.isDigit
      match matchLit false ['E', 'T', 'H'] (dropLeadWs (r2.dropWhile Char.isDigit)) with
      | some _ => some (ds ++ '.' :: ds2)
      | none => none
    | _ =>
      match matchLit false ['E', 'T', 'H'] (dropLeadWs rest) with
      | some _ => some ds
      | none => none

/-- Leftmost match of `/(\d+\.?\d*)\s*ETH/`, capture 1. -/
def findAmountEth : List Char → Option String
  | [] => none
  | c :: cs =>
    match amountEthAttempt (c :: cs) with
    | some run => some ⟨run⟩
    | none => findAmountEth cs

/-- Fuelled scanner for `replace(/\s*ETH\s*/gi, '')`. -/
def removeEthGo : Nat → List Char → List Char
  | 0, cs => cs
  | _ + 1, [] => []
  | fuel + 1, c :: cs =>
    match matchLit true ['E', 'T', 'H'] (dropLeadWs (c :: cs)) with
    | some rest => removeEthGo fuel (rest.dropWhile isJsWs)
    | none => c :: removeEthGo fuel cs

/-- Model of `s.replace(/\s*ETH\s*/gi, '')`. -/
def removeEthTokens (s : String) : String :=
  ⟨removeEthGo s.data.length s.data⟩

/-- Model of JavaScript `String.prototype.slice` with negative-index
normalisation; `none` as the second index means "to the end". -/
def sliceStr (s : String) (a : Int) (b : Option Int) : String :=
  let len : Int := s.data.length
  let norm (i : Int) : Nat := (if i < 0 then max 0 (len + i) else min i len).toNat
  let start := norm a
  let stop := match b with | none => s.data.length | some x => norm x
  ⟨(s.data.drop start).take (stop - start)⟩

/-- Model of `v.slice(a, b)` followed by string interpolation: works on
strings and arrays, throws a `TypeError` on other receivers. -/
def sliceCoerceE (v : JsValue) (a : Int) (b : Option Int) : Except String String :=
  match v with
  | .vStr s => .ok (sliceStr s a b)
  | .vArr _ => .error "array slice is not modelled"
  | _ => .error "slice is not a function"

/-- Model of `s.startsWith(pat)`. -/
def jsStartsWith (s pat : String) : Bool :=
  leadingMatch pat.data s.data

/-- Model of JavaScript `===`/`!==` between parsed JSON values: value
equality on primitives; distinct object/array nodes of a parsed document are
never reference-equal, so composite values compare unequal. -/
def jsStrictEq (a b : JsValue) : Bool :=
  match a, b with
  | .vNull, .vNull => true
  | .vUndefined, .vUndefined => true
  | .vBool x, .vBool y => x = y
  | .vNum ma ea, .vNum mb eb => decValEq ma ea mb eb
  | .vStr x, .vStr y => x = y
  | _, _ => false

/-- Conversation roles: LangChain `SystemMessage`, `HumanMessage`,
`AIMessage`.  Synthetic tool-result turns are `AIMessage`s in the source. -/
inductive MsgRole where
  | system : MsgRole
  | human : MsgRole
  | ai : MsgRole
deriving DecidableEq, Repr

/-- One conversation turn. -/
structure Message where
  role : MsgRole
  content : String
deriving DecidableEq, Repr

/-- Build a system message. -/
def systemMessage (content : String) : Message := ⟨.system, content⟩

/-- Build a user message. -/
def humanMessage (content : String) : Message := ⟨.human, content⟩

/-- Build an assistant message. -/
def aiMessage (content : String) : Message := ⟨.ai, content⟩

/-- A tool-call audit record: name plus display-formatted result. -/
structure ToolCallRecord where
  name : String
  result : String
deriving DecidableEq, Repr

/-- A model-requested tool invocation. -/
structure ToolCallReq where
  name : String
  args : JsValue

/-- A language-model response: free-text content (a string in the client
contract, modelled as a value to cover the `typeof content === 'string'`
guard) plus the list of requested tool invocations. -/
structure LLMResponse where
  content : JsValue
  tool_calls : List ToolCallReq

/-- A registered tool: its name and its (fallible) invocation function.
Tool results are JavaScript values; a thrown error is `.error`. -/
structure ToolSpec where
  name : String
  run : JsValue → Except String JsValue

/-- The configuration fields the orchestration core reads
(src/src/config.ts; defaults 40 and 12). -/
structure Config where
  summaryTriggerMessages : Nat
  summaryKeepMessages : Nat

/-- The external world of one agent instance: the registered tools, the
chat model, the summarization model, and the wallet balance probe
(`none` models a missing provider or a throwing `getBalance`). -/
structure Env where
  tools : List ToolSpec
  llm : List Message → LLMResponse
  summaryLLM : List Message → Except String String
  balanceWei : Option Int
  cfg : Config

/-- A frozen fund-moving invocation awaiting confirmation.  The source
interface also declares an `estimatedGas?` field that no code path ever
sets; it is omitted. -/
structure PendingTransaction where
  toolName : String
  toolArgs : JsValue
  description : String

/-- The mutable state of a `CoinbaseAgent` that the orchestration loop
touches: the conversation history, the wallet address, and the
pending-transaction slot. -/
structure AgentState where
  conversationHistory : List Message
  walletAddress : String
  pendingTransaction : Option PendingTransaction

/-- The structured response returned by `chat` / `processAgentIteration` /
`confirmTransaction`. -/
structure AgentResponse where
  message : String
  toolCalls : Option (List ToolCallRecord)
  pendingTransaction : Option PendingTransaction

/-- Ghost observability data (not part of the source state): every tool
actually invoked (name and arguments), the number of chat-model calls, and
the prior value of the pending-transaction slot at each freeze. -/
structure Ghost where
  invoked : List (String × JsValue)
  llmCalls : Nat
  freezes : List (Option PendingTransaction)

/-- The empty ghost record. -/
def emptyGhost : Ghost := ⟨[], 0, []⟩

/-- Options of `processAgentIteration` (`prefixMessage`,
`initialToolCalls`). -/
structure IterOptions where
  prefixMessage : String
  initialToolCalls : List ToolCallRecord

/-- Default options: no prefix, no initial records. -/
def defaultIterOptions : IterOptions := ⟨"", []⟩

/-- The system prompt.  The source text is a long multiline instruction
whose content never influences control flow; only its identity matters to
the verified properties, so the constant holds its opening line. -/
def SYSTEM_PROMPT : String :=
  "You are a friendly and knowledgeable blockchain wallet assistant powered by Coinbase AgentKit. Your goal is to help users manage their crypto assets in a clear, helpful, and conversational manner."

/-- The configured network identifier (config default `base-sepolia`). -/
def networkIdConfig : String := "base-sepolia"

/-- The fund-moving operation names requiring confirmation. -/
def TRANSACTION_REQUIRING_CONFIRMATION : List String :=
  ["native_transfer", "erc20_transfer", "uniswap_swap", "wrap_eth", "unwrap_eth"]

/-- Model of `TRANSACTION_REQUIRING_CONFIRMATION.some((name) =>
toolCall.name.includes(name))`. -/
def requiresConfirmation (toolName : String) : Bool :=
  TRANSACTION_REQUIRING_CONFIRMATION.any (fun n => jsIncludes toolName n)

/-- Model of `this.tools.find((t) => t.name === toolCall.name)`. -/
def findTool (env : Env) (name : String) : Option ToolSpec :=
  env.tools.find? (fun t => t.name = name)

/-- Model of `formatEthBalance` on a bigint wei amount:
`(Number(wei) / 1e18).toFixed(4)` in exact decimal arithmetic. -/
def formatEthBalance (wei : Int) : String :=
  decToFixed wei (-18) 4

/-- Model of `getEthBalanceNumber`: `null` without a provider or on a
thrown balance query, otherwise `Number(formatEthBalance(balance))`
(always finite). -/
def getEthBalanceNumber (env : Env) : Option (Int × Int) :=
  match env.balanceWei with
  | none => none
  | some wei => jsToNumber (.vStr (formatEthBalance wei))

/-- Model of the `??` operator. -/
def jsNullish (a b : JsValue) : JsValue :=
  match a with
  | .vNull => b
  | .vUndefined => b
  | a => a

/-- Model of `parseAmount`: `Number(value)` guarded to a finite positive
number, else `null`. -/
def parseAmount (v : JsValue) : Option (Int × Int) :=
  match v with
  | .vNull => none
  | .vUndefined => none
  | v =>
    match jsToNumber v with
    | none => none
    | some (m, e) => if m ≤ 0 then none else some (m, e)

/-- The forty-character box line used by the description templates. -/
def sepLine : String := ⟨List.replicate 40 (Char.ofNat 0x2501)⟩

/-- Model of `generateTransactionDescription`: the fixed-format block per
operation kind.  Branch order follows the source, so a name containing
`unwrap_eth` is caught by the earlier `wrap_eth` substring branch. -/
def generateTransactionDescription (toolName : String) (args : JsValue) : String :=
  if jsIncludes toolName "native_transfer" then
    "💰 ETH 转账\n" ++ sepLine ++ "\n接收地址: " ++
      jsToString (jsOr (jsGetD args "to") (jsOr (jsGetD args "recipient") (.vStr "N/A"))) ++
      "\n转账金额: " ++
      jsToString (jsOr (jsGetD args "amount") (jsOr (jsGetD args "value") (.vStr "N/A"))) ++
      " ETH\n" ++ sepLine
  else if jsIncludes toolName "erc20_transfer" then
    "🪙 ERC20 代币转账\n" ++ sepLine ++ "\n代币地址: " ++
      jsToString (jsOr (jsGetD args "tokenAddress") (jsOr (jsGetD args "token") (.vStr "N/A"))) ++
      "\n接收地址: " ++
      jsToString (jsOr (jsGetD args "to") (jsOr (jsGetD args "recipient") (.vStr "N/A"))) ++
      "\n转账数量: " ++
      jsToString (jsOr (jsGetD args "amount") (jsOr (jsGetD args "value") (.vStr "N/A"))) ++
      "\n" ++ sepLine
  else if jsIncludes toolName "uniswap_swap" then
    "🔄 Uniswap 代币交换\n" ++ sepLine ++ "\n从: " ++
      jsToString (jsOr (jsGetD args "tokenIn") (.vStr "N/A")) ++
      "\n到: " ++ jsToString (jsOr (jsGetD args "tokenOut") (.vStr "N/A")) ++
      "\n数量: " ++ jsToString (jsOr (jsGetD args "amount") (.vStr "N/A")) ++
      "\n滑点容忍度: " ++ jsToString (jsOr (jsGetD args "slippage") (.vNum 5 (-1))) ++
      "%\n" ++ sepLine
  else if jsIncludes toolName "wrap_eth" then
    "📦 包装 ETH 为 WETH\n" ++ sepLine ++ "\nETH 数量: " ++
      jsToString (jsOr (jsGetD args "amount") (jsOr (jsGetD args "value") (.vStr "N/A"))) ++
      "\n" ++ sepLine
  else if jsIncludes toolName "unwrap_eth" then
    "📦 解包 WETH 为 ETH\n" ++ sepLine ++ "\nWETH 数量: " ++
      jsToString (jsOr (jsGetD args "amount") (jsOr (jsGetD args "value") (.vStr "N/A"))) ++
      "\n" ++ sepLine
  else
    "交易操作: " ++ toolName ++ "\n参数: " ++ jsonStringifyPretty args

/-- Model of `buildTransactionDescription`: the rendered block, plus — for
operations consuming the native currency — the live balance line and the
insufficiency warning. -/
def buildTransactionDescription (env : Env) (toolName : String) (args : JsValue) : String :=
  let description := generateTransactionDescription toolName args
  let needsEthBalanceCheck :=
    jsIncludes toolName "native_transfer" ||
    jsIncludes toolName "wrap_eth" ||
    (jsIncludes toolName "uniswap_swap" &&
      (jsToString (jsOr (jsGetD args "tokenIn") (.vStr ""))).toUpper = "ETH")
  if needsEthBalanceCheck then
    match getEthBalanceNumber env with
    | some (bm, be) =>
      let d1 := description ++ "\n当前可用余额: " ++ decToFixed bm be 4 ++ " ETH"
      match parseAmount (jsNullish (jsGetD args "amount") (jsGetD args "value")) with
      | some (am, ae) =>
        if decGt am ae bm be then d1 ++ "\n⚠️ 警告: 转账金额高于当前余额，可能会失败。" else d1
      | none => d1
    | none => description
  else description

/-- Build the `PendingTransaction` frozen for a fund-moving invocation
(`toolArgs: toolCall.args || \x7b\x7d`). -/
def mkPendingTransaction (env : Env) (c : ToolCallReq) : PendingTransaction :=
  { toolName := c.name
    toolArgs := argsOrEmpty c.args
    description := buildTransactionDescription env c.name (argsOrEmpty c.args) }

/-- Substring dispatch `r.name.includes('balance') ||
r.name.includes('wallet') || r.name.includes('get_wallet')` shared by the
result-formatting paths. -/
def isBalanceWalletName (name : String) : Bool :=
  jsIncludes name "balance" || jsIncludes name "wallet" || jsIncludes name "get_wallet"

/-- The placeholder address the source refuses to display. -/
def placeholderAddress : String := "0x1234567890123456789012345678901234567890"

/-- The `get_wallet_details` balance extraction of `formatToolResult`:
`result.balance || result.ethBalance || ''`, falling back to the
`Native Balance:` patterns inside `result.nativeBalance`. -/
def extractDetailsBalance (v : JsValue) : JsValue :=
  let balance := jsOr (jsGetD v "balance") (jsOr (jsGetD v "ethBalance") (.vStr ""))
  let nativeBalance := jsGetD v "nativeBalance"
  if !truthy balance && truthy nativeBalance then
    match findNativeBalanceExact (jsToString nativeBalance).data with
    | some run => .vStr (parseFloatToFixed4 run)
    | none =>
      match nativeBalance with
      | .vStr nb =>
        if jsIncludes nb "ETH" then
          match findNumEth false nb.data with
          | some run => .vStr (parseFloatToFixed4 run)
          | none => balance
        else balance
      | _ => balance
  else balance

/-- The balance extraction of the `balance`/`get_balance` branch of
`formatToolResult` (string `nativeBalance` only, flexible whitespace,
case-sensitive `ETH`). -/
def extractSimpleBalance (v : JsValue) : JsValue :=
  let balance := jsOr (jsGetD v "balance") (jsOr (jsGetD v "ethBalance") (.vStr ""))
  let nativeBalance := jsGetD v "nativeBalance"
  if !truthy balance && truthy nativeBalance then
    match nativeBalance with
    | .vStr nb =>
      (match findNumEth false nb.data with
       | some run => .vStr (parseFloatToFixed4 run)
       | none => balance)
    | _ => balance
  else balance

/-- The non-string branches of `formatToolResult` (the
`typeof result === 'object' && result !== null` branch per tool-name
dispatch, and the `String(result)` fallback).  No operation here can
throw. -/
def formatNonString (toolName : String) (v : JsValue) : String :=
  match v with
  | .vObj _ | .vArr _ =>
    if toolName = "get_wallet_address" then
      let address := jsOr (jsGetD v "address") (.vStr "")
      let clientAddress := jsOr (jsGetD v "clientAddress") (.vStr "")
      jsonStringifyPretty (.vObj (.cons "address" address
        (.cons "clientAddress" (jsOr clientAddress .vUndefined) .nil)))
    else if toolName = "get_wallet_details" || toolName = "getWalletDetails" then
      let balance := extractDetailsBalance v
      let address := jsOr (jsGetD v "address") (jsOr (jsGetD v "walletAddress") (.vStr ""))
      let network0 := jsOr (jsGetD v "network") (.vStr networkIdConfig)
      let networkIdField := jsGetD v "networkId"
      let network :=
        if truthy networkIdField then
          if jsStrictEq networkIdField (.vStr "base-sepolia") then .vStr "Base Sepolia"
          else if jsStrictEq networkIdField (.vStr "base") then .vStr "Base"
          else networkIdField
        else network0
      jsonStringifyPretty (.vObj (.cons "address" address
        (.cons "balance" (.vStr (if truthy balance then jsToString balance ++ " ETH" else "0 ETH"))
          (.cons "network" network .nil))))
    else if jsIncludes toolName "balance" || jsIncludes toolName "get_balance" then
      let balance := extractSimpleBalance v
      let address := jsOr (jsGetD v "address") (jsOr (jsGetD v "walletAddress") (.vStr ""))
      let fields :=
        (if truthy address then [("address", address)] else []) ++
        (if truthy balance then [("balance", JsValue.vStr (jsToString balance ++ " ETH"))] else [])
      jsonStringifyPretty (.vObj (JsObj.ofList fields))
    else jsonStringifyPretty v
  | .vStr s => s
  | v => jsToString v

/-- Model of `formatToolResult`.  The string branch re-parses JSON-looking
strings and recurses on the parsed value; since a text whose first
non-whitespace character is a brace or bracket can only parse to an object
or array (`jsonParse_brace_or_bracket` below), the recursive call lands in
the non-string branch and is inlined here as `formatNonString`.  The result
type records that a JavaScript implementation could throw; every throwing
operation (only `JSON.parse`) is caught locally, so the result is always
`.ok`. -/
def formatToolResult (toolName : String) (v : JsValue) : Except String String :=
  match v with
  | .vStr s =>
    if trimStartsBraceOrBracket s then
      match jsonParse s with
      | some parsed => .ok (formatNonString toolName parsed)
      | none => .ok s
    else .ok s
  | v => .ok (formatNonString toolName v)

/-- Length of a modelled array. -/
def JsArr.length : JsArr → Nat
  | .nil => 0
  | .cons _ rest => 1 + rest.length

/-- The address validity check of the `get_wallet_address` branch:
`address && address.length === 42 && address.startsWith('0x') &&
address !== placeholder`.  On a non-string truthy receiver the `.length`
read yields `undefined` (or the `length` member of an object/array), and a
passing length check followed by `.startsWith` on a non-string throws. -/
def addressValidE (address : JsValue) : Except String Bool :=
  if !truthy address then .ok false
  else
    match address with
    | .vStr a => .ok (a.data.length = 42 && jsStartsWith a "0x" && a ≠ placeholderAddress)
    | .vArr l => if l.length = 42 then .error "startsWith is not a function" else .ok false
    | .vObj fs =>
      (match lookupLast fs "length" with
       | some (.vNum m e) =>
         if decValEq m e 42 0 then .error "startsWith is not a function" else .ok false
       | _ => .ok false)
    | _ => .ok false

/-- The three-line dual-address template of the friendly-message
synthesizer. -/
def dualAddressTemplate (clientAddress address : JsValue) : String :=
  "🧭 当前连接钱包地址: " ++ jsToString clientAddress ++ "\n" ++
  "📍 服务端钱包地址（交易实际使用）: " ++ jsToString address ++ "\n" ++
  "⚠️ 注意：交易仍使用服务端钱包签名，若需更换请在 Wallet Manager 切换或导入私钥。"

/-- The JSON (`try`) branch of `generateFriendlyMessageFromToolResults`
for one record; `.error` models any JavaScript throw inside the `try`
(`JSON.parse` failure, property reads on `null`, string methods on
non-string values), which the source catches into the string branch. -/
def friendlyJsonBranch (tc : ToolCallRecord) : Except String (List String) := do
  let result ← jsonParseE tc.result
  if jsIncludes tc.name "transfer" || jsIncludes tc.name "native_transfer" then
    let hashA ← jsGetE result "transactionHash"
    let hashB ← jsGetE result "hash"
    let hashC ← jsGetE result "txHash"
    let hash := jsOr hashA (jsOr hashB (jsOr hashC (.vStr "")))
    let toA ← jsGetE result "to"
    let toB ← jsGetE result "recipient"
    let tov := jsOr toA (jsOr toB (.vStr ""))
    let amountA ← jsGetE result "amount"
    let amountB ← jsGetE result "value"
    let amount := jsOr amountA (jsOr amountB (.vStr ""))
    let to1 ← sliceCoerceE tov 0 (some 6)
    let to2 ← sliceCoerceE tov (-4) none
    let h1 ← sliceCoerceE hash 0 (some 10)
    let h2 ← sliceCoerceE hash (-8) none
    pure ["✅ 转账成功！已发送 " ++ jsToString amount ++ " ETH 到地址 " ++ to1 ++ "..." ++
      to2 ++ "。交易哈希: " ++ h1 ++ "..." ++ h2]
  else if tc.name = "get_wallet_address" then
    let addressA ← jsGetE result "address"
    let address := jsOr addressA (.vStr "")
    let clientA ← jsGetE result "clientAddress"
    let clientAddress := jsOr clientA (.vStr "")
    let valid ← addressValidE address
    if valid then
      if truthy clientAddress then
        if !jsStrictEq clientAddress address then
          pure [dualAddressTemplate clientAddress address]
        else pure ["🧭 当前连接钱包地址: " ++ jsToString address]
      else pure ["📍 钱包地址: " ++ jsToString address]
    else pure ["❌ 无法获取有效的钱包地址。请检查钱包连接。"]
  else if isBalanceWalletName tc.name then
    let balA ← jsGetE result "balance"
    let balB ← jsGetE result "ethBalance"
    let balance0 := jsOr balA (jsOr balB (.vStr ""))
    let nativeBalance ← jsGetE result "nativeBalance"
    let balance :=
      if !truthy balance0 && truthy nativeBalance then
        match nativeBalance with
        | .vStr nb =>
          (match findNumEth false nb.data with
           | some run => .vStr (parseFloatToFixed4 run)
           | none => balance0)
        | _ => balance0
      else balance0
    if truthy balance then
      match balance with
      | .vStr b => pure ["💰 余额: " ++ removeEthTokens b ++ " ETH"]
      | _ => .error "replace is not a function"
    else pure ["💰 余额: 0 ETH"]
  else pure ["✅ " ++ tc.name ++ " 操作完成"]

/-- The string (`catch`) branch of `generateFriendlyMessageFromToolResults`
for one record. -/
def friendlyStrBranch (tc : ToolCallRecord) : List String :=
  let resultStr := tc.result
  if tc.name = "get_wallet_address" then
    match findHex 40 resultStr.data with
    | some a =>
      if a ≠ placeholderAddress then ["📍 钱包地址: " ++ a]
      else ["❌ 无法获取有效的钱包地址。请检查钱包连接。"]
    | none => ["❌ 无法获取有效的钱包地址。请检查钱包连接。"]
  else if isBalanceWalletName tc.name then
    let ethBalanceMatch :=
      match findNativeBalanceFlex resultStr.data with
      | some run => some run
      | none => findNumEth true resultStr.data
    match ethBalanceMatch with
    | some run => ["💰 余额: " ++ parseFloatToFixed4 run ++ " ETH"]
    | none => ["💰 余额: 0 ETH"]
  else if jsIncludes resultStr "Transaction" || jsIncludes resultStr "transferred" ||
      jsIncludes resultStr "Transferred" then
    let hash := (findHex 64 resultStr.data).getD ""
    let address := (findHex 40 resultStr.data).getD ""
    let amount := (findAmountEth resultStr.data).getD ""
    (if amount ≠ "" && address ≠ "" then
      ["✅ 转账成功！已发送 " ++ amount ++ " ETH 到地址 " ++ sliceStr address 0 (some 6) ++
        "..." ++ sliceStr address (-4) none]
     else []) ++
    (if hash ≠ "" then
      ["交易哈希: " ++ sliceStr hash 0 (some 10) ++ "..." ++ sliceStr hash (-8) none]
     else []) ++
    (if hash = "" && address = "" then ["✅ " ++ tc.name ++ " 操作完成"] else [])
  else ["✅ " ++ tc.name ++ " 操作完成"]

/-- The messages contributed by one record: the JSON branch, falling to the
string branch when the former throws. -/
def friendlyOf (tc : ToolCallRecord) : List String :=
  match friendlyJsonBranch tc with
  | .ok ms => ms
  | .error _ => friendlyStrBranch tc

/-- Model of `generateFriendlyMessageFromToolResults`. -/
def generateFriendlyMessageFromToolResults (toolCalls : List ToolCallRecord) : String :=
  if toolCalls = [] then "操作已完成。"
  else
    let joined := String.intercalate "\n" (toolCalls.flatMap friendlyOf)
    if joined = "" then "操作已完成。" else joined

mutual

/-- Compact `JSON.stringify(v)` (no indentation), used on non-string model
content. -/
def jsonStringifyC : JsValue → String
  | .vNull => "null"
  | .vUndefined => "null"
  | .vBool b => if b then "true" else "false"
  | .vNum m e => decNumToString m e
  | .vStr s => quoteJsonString s
  | .vArr vs => "[" ++ String.intercalate "," (jsonStringifyCElems vs) ++ "]"
  | .vObj fields => "\x7b" ++ String.intercalate "," (jsonStringifyCFields fields) ++ "\x7d"

/-- Compact stringification of array elements. -/
def jsonStringifyCElems : JsArr → List String
  | .nil => []
  | .cons v vs => jsonStringifyC v :: jsonStringifyCElems vs

/-- Compact stringification of object members (skipping `undefined`). -/
def jsonStringifyCFields : JsObj → List String
  | .nil => []
  | .cons k v fs =>
    match v with
    | .vUndefined => jsonStringifyCFields fs
    | v => (quoteJsonString k ++ ":" ++ jsonStringifyC v) :: jsonStringifyCFields fs

end

/-- Model of `typeof response.content === 'string' ? response.content :
JSON.stringify(response.content)` (a top-level `undefined`, which
`JSON.stringify` maps to no string at all, is rendered as `"undefined"`;
the client contract always delivers a string). -/
def contentToString (c : JsValue) : String :=
  match c with
  | .vStr s => s
  | .vUndefined => "undefined"
  | v => jsonStringifyC v

/-- One record of the per-round tool-results text fed back to the model
(the `toolResults.map(...)` body, a `try/catch` around `JSON.parse`
with the balance/wallet simplification). -/
def toolResultEntry (r : ToolCallRecord) : String :=
  match (do
    let parsed ← jsonParseE r.result
    if isBalanceWalletName r.name then do
      let bal ← jsGetE parsed "balance"
      let addr ← jsGetE parsed "address"
      let net ← jsGetE parsed "network"
      let fields :=
        (if truthy bal then [("balance", bal)] else []) ++
        (if truthy addr && !jsIncludes r.name "balance" then [("address", addr)] else []) ++
        (if truthy net && !jsIncludes r.name "balance" then [("network", net)] else [])
      pure (jsonStringifyPretty (.vObj (JsObj.ofList fields)))
    else pure (jsonStringifyPretty parsed)) with
  | .ok s => s
  | .error _ =>
    if isBalanceWalletName r.name then
      match findNumEth true r.result.data with
      | some run =>
        jsonStringifyPretty (.vObj (.cons "balance" (.vStr (parseFloatToFixed4 run ++ " ETH")) .nil))
      | none => r.result
    else r.result

/-- The synthetic tool-results turn appended after a round. -/
def toolResultsText (results : List ToolCallRecord) : String :=
  String.intercalate "\n" (results.map toolResultEntry)

/-- Early-return message core for a detected fund-moving invocation. -/
def earlyCoreMessage (description : String) : String :=
  "⚠️ 检测到需要确认的交易操作：\n\n" ++ description ++ "\n\n请确认是否执行此交易。"

/-- Model of the ternary on `prefixMessage`: prepend it (with a blank line)
when non-empty. -/
def withPrefixMsg (pm core : String) : String :=
  if pm ≠ "" then pm ++ "\n\n" ++ core else core

/-- Model of `allToolCalls.length > 0 ? allToolCalls : undefined`. -/
def optRecords (l : List ToolCallRecord) : Option (List ToolCallRecord) :=
  if l.length > 0 then some l else none

/-- Outcome of processing the invocation list of one round: either the
early return that freezes a pending transaction (carrying the accumulators
as of that moment), or completion of the whole list. -/
inductive ExecOut where
  | early : PendingTransaction → List ToolCallRecord → List ToolCallRecord →
      List (String × JsValue) → ExecOut
  | done : List ToolCallRecord → List ToolCallRecord → List (String × JsValue) → ExecOut

/-- The `for (const toolCall of response.tool_calls)` body: resolve the
name (silently skipping unresolved ones), freeze a pending transaction for
a fund-moving invocation when none is pending (returning early), otherwise
execute, formatting the result or recording the caught error text.  The
accumulators are this round's `toolResults`, the cumulative `allToolCalls`,
and the ghost list of invocations actually executed. -/
def execCalls (env : Env) (pending : Option PendingTransaction) :
    List ToolCallReq → List ToolCallRecord → List ToolCallRecord →
    List (String × JsValue) → ExecOut
  | [], toolResults, allToolCalls, invoked => .done toolResults allToolCalls invoked
  | c :: rest, toolResults, allToolCalls, invoked =>
    match findTool env c.name with
    | none => execCalls env pending rest toolResults allToolCalls invoked
    | some tool =>
      if requiresConfirmation c.name && pending.isNone then
        .early (mkPendingTransaction env c) toolResults allToolCalls invoked
      else
        let args := argsOrEmpty c.args
        match (do
          let result ← tool.run args
          formatToolResult c.name result) with
        | .ok formatted =>
          execCalls env pending rest (toolResults ++ [⟨c.name, formatted⟩])
            (allToolCalls ++ [⟨c.name, formatted⟩]) (invoked ++ [(c.name, args)])
        | .error e =>
          execCalls env pending rest (toolResults ++ [⟨c.name, "Error: " ++ e⟩])
            (allToolCalls ++ [⟨c.name, "Error: " ++ e⟩]) (invoked ++ [(c.name, args)])

/-- The `while (iteration < maxIterations)` loop of
`processAgentIteration`, by remaining fuel.  The fuel-exhausted case is the
fallback after `maxIterations` rounds. -/
def iterLoop (env : Env) (pm : String) :
    Nat → AgentState → List ToolCallRecord → Nat → List (String × JsValue) →
    List (Option PendingTransaction) → AgentResponse × AgentState × Ghost
  | 0, st, allToolCalls, llmCalls, invoked, freezes =>
    let friendlyMessage :=
      if allToolCalls.length > 0 then generateFriendlyMessageFromToolResults allToolCalls
      else "我处理了你的请求，但遇到了一些问题。请重试。"
    (⟨withPrefixMsg pm friendlyMessage, optRecords allToolCalls, none⟩, st,
     ⟨invoked, llmCalls, freezes⟩)
  | fuel + 1, st, allToolCalls, llmCalls, invoked, freezes =>
    let response := env.llm st.conversationHistory
    if response.tool_calls.length > 0 then
      match execCalls env st.pendingTransaction response.tool_calls [] allToolCalls [] with
      | .early pt _ all inv =>
        (⟨withPrefixMsg pm (earlyCoreMessage pt.description), optRecords all, some pt⟩,
         { st with pendingTransaction := some pt },
         ⟨invoked ++ inv, llmCalls + 1, freezes ++ [st.pendingTransaction]⟩)
      | .done toolResults all inv =>
        let st' := { st with conversationHistory := st.conversationHistory ++
          [aiMessage ("Tool execution completed. Results:\n" ++ toolResultsText toolResults)] }
        iterLoop env pm fuel st' all (llmCalls + 1) (invoked ++ inv) freezes
    else
      let content := contentToString response.content
      let isRawToolOutput := allToolCalls.length > 0 &&
        allToolCalls.any (fun tc =>
          jsIncludes content tc.result || jsIncludes content ("Tool \"" ++ tc.name ++ "\""))
      if isRawToolOutput && content.length < 200 then
        let friendlyMessage := generateFriendlyMessageFromToolResults allToolCalls
        (⟨withPrefixMsg pm friendlyMessage, optRecords allToolCalls, none⟩,
         { st with conversationHistory := st.conversationHistory ++ [aiMessage friendlyMessage] },
         ⟨invoked, llmCalls + 1, freezes⟩)
      else
        (⟨withPrefixMsg pm content, optRecords allToolCalls, none⟩,
         { st with conversationHistory := st.conversationHistory ++ [aiMessage content] },
         ⟨invoked, llmCalls + 1, freezes⟩)

/-- Model of `processAgentIteration` (`maxIterations = 5`). -/
def processAgentIteration (env : Env) (opts : IterOptions) (st : AgentState) :
    AgentResponse × AgentState × Ghost :=
  iterLoop env opts.prefixMessage 5 st opts.initialToolCalls 0 [] []

/-- The fixed system instruction of the summarization call. -/
def summarySystemMessage : Message :=
  systemMessage "你是对话摘要助手。请用简洁中文总结用户需求、已完成动作、待确认交易、关键偏好与上下文。"

/-- The fixed user instruction of the summarization call. -/
def summaryPromptMessage : Message :=
  humanMessage "请给出一段不超过 8 行的摘要，便于后续继续对话。"

/-- The message list sent to the summarization model for a given middle
segment. -/
def summaryInput (messagesToSummarize : List Message) : List Message :=
  summarySystemMessage :: messagesToSummarize ++ [summaryPromptMessage]

/-- Model of `maybeSummarizeHistory`: below the trigger do nothing;
otherwise split into head, middle and tail, skip when the middle is tiny,
then replace the history with prompt + summary + tail, degrading to
prompt + tail when the summarization model fails.  Both slice operations
use truncated arithmetic, which agrees with the clamping of JavaScript
`slice` on every reachable length. -/
def maybeSummarizeHistory (cfg : Config) (env : Env) (hist : List Message) : List Message :=
  let trigger := max 10 cfg.summaryTriggerMessages
  if hist.length ≤ trigger then hist
  else
    let keepCount := max 6 cfg.summaryKeepMessages
    let recentMessages := hist.drop (hist.length - keepCount)
    let messagesToSummarize := (hist.take (hist.length - keepCount)).drop 1
    if messagesToSummarize.length < 4 then hist
    else
      match env.summaryLLM (summaryInput messagesToSummarize) with
      | .ok summaryText =>
        systemMessage SYSTEM_PROMPT :: systemMessage ("对话摘要：\n" ++ summaryText) :: recentMessages
      | .error _ =>
        systemMessage SYSTEM_PROMPT :: recentMessages

/-- Model of `chat`: append the user turn, maybe summarize, run the
iteration loop.  The surrounding `try/catch` of the source (friendly
explanation of a thrown model error) is unreachable here because the
modelled chat model is total. -/
def chat (env : Env) (userMessage : String) (st : AgentState) :
    AgentResponse × AgentState × Ghost :=
  let st1 := { st with conversationHistory := st.conversationHistory ++ [humanMessage userMessage] }
  let st2 := { st1 with conversationHistory := maybeSummarizeHistory env.cfg env st1.conversationHistory }
  processAgentIteration env defaultIterOptions st2

/-- Model of `hasPendingTransaction`. -/
def hasPendingTransaction (st : AgentState) : Bool :=
  st.pendingTransaction.isSome

/-- Model of `clearHistory`: reset the conversation to the single system
prompt; nothing else is touched. -/
def clearHistory (st : AgentState) : AgentState :=
  { st with conversationHistory := [systemMessage SYSTEM_PROMPT] }

/-- Model of `cancelTransaction`. -/
def cancelTransaction (st : AgentState) : String × AgentState :=
  match st.pendingTransaction with
  | none => ("没有待确认的交易。", st)
  | some p =>
    ("❌ 交易已取消。\n\n已取消的交易:\n" ++ p.description,
     { st with conversationHistory := st.conversationHistory ++ [aiMessage "用户取消了交易。"],
               pendingTransaction := none })

/-- Model of `confirmTransaction`: nothing pending / unresolved tool /
execution and resume / caught execution failure. -/
def confirmTransaction (env : Env) (st : AgentState) :
    AgentResponse × AgentState × Ghost :=
  match st.pendingTransaction with
  | none => (⟨"没有待确认的交易。", none, none⟩, st, emptyGhost)
  | some p =>
    match findTool env p.toolName with
    | none =>
      (⟨"找不到对应的交易工具。", none, none⟩, { st with pendingTransaction := none }, emptyGhost)
    | some tool =>
      match (do
        let result ← tool.run p.toolArgs
        formatToolResult p.toolName result) with
      | .ok formattedResult =>
        let st1 := { st with
          conversationHistory := st.conversationHistory ++
            [aiMessage ("交易已确认并执行。结果: " ++ formattedResult)],
          pendingTransaction := none }
        let out := processAgentIteration env
          ⟨"✅ 交易已确认并执行成功！\n\n" ++ formattedResult, [⟨p.toolName, formattedResult⟩]⟩ st1
        (out.1, out.2.1,
         ⟨(p.toolName, p.toolArgs) :: out.2.2.invoked, out.2.2.llmCalls, out.2.2.freezes⟩)
      | .error e =>
        (⟨"❌ 交易执行失败: " ++ e, none, none⟩, { st with pendingTransaction := none },
         ⟨[(p.toolName, p.toolArgs)], 0, []⟩)

/-- A requested invocation that triggers the confirmation gate when no
transaction is pending: its name resolves in the registry and matches the
fund-moving set by substring. -/
def isEarlyTrigger (env : Env) (c : ToolCallReq) : Bool :=
  (findTool env c.name).isSome && requiresConfirmation c.name

/-- Cumulative record list carried by a round outcome. -/
def ExecOut.allRecs : ExecOut → List ToolCallRecord
  | .early _ _ a _ => a
  | .done _ a _ => a

/-- Ghost invocation list carried by a round outcome. -/
def ExecOut.invokedL : ExecOut → List (String × JsValue)
  | .early _ _ _ i => i
  | .done _ _ i => i

/-- Round-results list carried by a round outcome. -/
def ExecOut.resultsL : ExecOut → List ToolCallRecord
  | .early _ r _ _ => r
  | .done r _ _ => r

def witnessTransferTool : ToolSpec := ⟨"native_transfer", fun _ => .error "insufficient funds"⟩

def witnessEnvFreeze : Env :=
  { tools := [witnessTransferTool]
    llm := fun _ => ⟨.vStr "", [⟨"native_transfer", .vUndefined⟩]⟩
    summaryLLM := fun _ => .error "offline"
    balanceWei := none
    cfg := ⟨40, 12⟩ }

def witnessEnvLoop : Env :=
  { tools := []
    llm := fun _ => ⟨.vStr "", [⟨"mystery_tool", .vUndefined⟩]⟩
    summaryLLM := fun _ => .ok "摘要"
    balanceWei := none
    cfg := ⟨40, 12⟩ }

def witnessState : AgentState := ⟨[systemMessage SYSTEM_PROMPT], "0xME", none⟩

def witnessPending : PendingTransaction := ⟨"native_transfer", .vObj .nil, "desc"⟩

def witnessStatePending : AgentState :=
  ⟨[systemMessage SYSTEM_PROMPT], "0xME", some witnessPending⟩

def witnessPendingGhostTool : PendingTransaction := ⟨"ghost_tool", .vObj .nil, "d"⟩

def witnessStateGhost : AgentState :=
  ⟨[systemMessage SYSTEM_PROMPT], "0xME", some witnessPendingGhostTool⟩

def witnessHistory41 : List Message := List.replicate 41 (humanMessage "hi")

def witnessUnknownCall : ToolCallReq := ⟨"mystery_tool", .vUndefined⟩

/-- While a transaction is already pending, the round processor never returns
early: every invocation list completes. -/
theorem execCalls_pending_some (env : Env) (p : PendingTransaction) :
    ∀ calls res all inv, ∃ r a i, execCalls env (some p) calls res all inv = .done r a i := by
  intro calls
  induction calls with
  | nil =>
    intro res all inv
    exact ⟨res, all, inv, rfl⟩
  | cons c rest ih =>
    intro res all inv
    simp only [execCalls]
    cases hf : findTool env c.name with
    | none => exact ih res all inv
    | some tool =>
      simp only [Option.isNone_some, Bool.and_false, Bool.false_eq_true, if_false]
      cases hr : (tool.run (argsOrEmpty c.args) >>= fun result => formatToolResult c.name result) with
      | ok f => simp only [hr]; exact ih _ _ _
      | error e => simp only [hr]; exact ih _ _ _

/-- An early (freezing) return of the round processor can only happen when no
transaction was pending. -/
theorem execCalls_early_pending_none (env : Env) (pending : Option PendingTransaction) :
    ∀ calls res all inv pt r a i,
      execCalls env pending calls res all inv = .early pt r a i → pending = none := by
  intro calls
  induction calls with
  | nil => intro res all inv pt r a i h; simp [execCalls] at h
  | cons c rest ih =>
    intro res all inv pt r a i h
    simp only [execCalls] at h
    cases hf : findTool env c.name with
    | none =>
      simp only [hf] at h
      exact ih _ _ _ _ _ _ _ h
    | some tool =>
      simp only [hf] at h
      by_cases hg : (requiresConfirmation c.name && pending.isNone) = true
      · cases pending with
        | none => rfl
        | some p => simp at hg
      · rw [if_neg hg] at h
        cases hr : (tool.run (argsOrEmpty c.args) >>= fun result => formatToolResult c.name result) with
        | ok f => rw [hr] at h; exact ih _ _ _ _ _ _ _ h
        | error e => rw [hr] at h; exact ih _ _ _ _ _ _ _ h

/-- A list of invocations none of which triggers the confirmation gate
completes, and processing an extended list continues from its accumulators. -/
theorem execCalls_clean_extend (env : Env) :
    ∀ pre, (∀ x ∈ pre, isEarlyTrigger env x = false) →
    ∀ res all inv, ∃ r a i, execCalls env none pre res all inv = .done r a i ∧
      ∀ rest, execCalls env none (pre ++ rest) res all inv = execCalls env none rest r a i := by
  intro pre
  induction pre with
  | nil =>
    intro _ res all inv
    exact ⟨res, all, inv, rfl, fun rest => rfl⟩
  | cons x pre' ih =>
    intro hclean res all inv
    have hx : isEarlyTrigger env x = false := hclean x (by simp)
    have hrest : ∀ y ∈ pre', isEarlyTrigger env y = false := fun y hy => hclean y (by simp [hy])
    cases hf : findTool env x.name with
    | none =>
      obtain ⟨r, a, i, hd, hext⟩ := ih hrest res all inv
      refine ⟨r, a, i, ?_, ?_⟩
      · simp only [execCalls, hf]; exact hd
      · intro rest; simp only [List.cons_append, execCalls, hf]; exact hext rest
    | some tool =>
      have hreq : requiresConfirmation x.name = false := by
        unfold isEarlyTrigger at hx
        rw [hf] at hx
        simpa using hx
      cases hr : (tool.run (argsOrEmpty x.args) >>= fun result => formatToolResult x.name result) with
      | ok f =>
        obtain ⟨r, a, i, hd, hext⟩ := ih hrest (res ++ [⟨x.name, f⟩]) (all ++ [⟨x.name, f⟩])
          (inv ++ [(x.name, argsOrEmpty x.args)])
        refine ⟨r, a, i, ?_, ?_⟩
        · simp only [execCalls, hf, hreq, Bool.false_and, Bool.false_eq_true, if_false, hr]
          exact hd
        · intro rest
          simp only [List.cons_append, execCalls, hf, hreq, Bool.false_and, Bool.false_eq_true,
            if_false, hr]
          exact hext rest
      | error e =>
        obtain ⟨r, a, i, hd, hext⟩ := ih hrest (res ++ [⟨x.name, "Error: " ++ e⟩])
          (all ++ [⟨x.name, "Error: " ++ e⟩]) (inv ++ [(x.name, argsOrEmpty x.args)])
        refine ⟨r, a, i, ?_, ?_⟩
        · simp only [execCalls, hf, hreq, Bool.false_and, Bool.false_eq_true, if_false, hr]
          exact hd
        · intro rest
          simp only [List.cons_append, execCalls, hf, hreq, Bool.false_and, Bool.false_eq_true,
            if_false, hr]
          exact hext rest

/-- A resolved fund-moving invocation at the head of the list, with no pending
transaction, freezes immediately: the rest of the round is not examined. -/
theorem execCalls_head_early (env : Env) (c : ToolCallReq) (rest : List ToolCallReq)
    (res all : List ToolCallRecord) (inv : List (String × JsValue))
    (hf : (findTool env c.name).isSome = true) (hreq : requiresConfirmation c.name = true) :
    execCalls env none (c :: rest) res all inv = .early (mkPendingTransaction env c) res all inv := by
  obtain ⟨tool, ht⟩ := Option.isSome_iff_exists.mp hf
  simp [execCalls, ht, hreq]

/-- A round whose invocations never trigger the gate completes for every
pending-slot value. -/
theorem execCalls_done_of_clean (env : Env) (calls : List ToolCallReq)
    (hclean : ∀ x ∈ calls, isEarlyTrigger env x = false) :
    ∀ pending res all inv, ∃ r a i, execCalls env pending calls res all inv = .done r a i := by
  intro pending res all inv
  cases pending with
  | none =>
    obtain ⟨r, a, i, hd, _⟩ := execCalls_clean_extend env calls hclean res all inv
    exact ⟨r, a, i, hd⟩
  | some p => exact execCalls_pending_some env p calls res all inv

/-- The iteration loop preserves an existing pending transaction and never
reports one in its response. -/
theorem iterLoop_pending_some (env : Env) (pm : String) (p : PendingTransaction) :
    ∀ fuel st all llm inv fz, st.pendingTransaction = some p →
      (iterLoop env pm fuel st all llm inv fz).2.1.pendingTransaction = some p ∧
      (iterLoop env pm fuel st all llm inv fz).1.pendingTransaction = none := by
  intro fuel
  induction fuel with
  | zero =>
    intro st all llm inv fz hp
    exact ⟨hp, rfl⟩
  | succ fuel ih =>
    intro st all llm inv fz hp
    simp only [iterLoop]
    by_cases hc : (env.llm st.conversationHistory).tool_calls.length > 0
    · rw [if_pos hc]
      obtain ⟨r, a, i, hd⟩ := execCalls_pending_some env p
        (env.llm st.conversationHistory).tool_calls [] all []
      rw [hp, hd]
      exact ih _ _ _ _ _ rfl
    · rw [if_neg hc]
      split <;> exact ⟨hp, rfl⟩

/-- The iteration loop makes at most `fuel` additional model calls. -/
theorem iterLoop_llmCalls_le (env : Env) (pm : String) :
    ∀ fuel st all llm inv fz,
      (iterLoop env pm fuel st all llm inv fz).2.2.llmCalls ≤ llm + fuel := by
  intro fuel
  induction fuel with
  | zero =>
    intro st all llm inv fz
    simp [iterLoop]
  | succ fuel ih =>
    intro st all llm inv fz
    simp only [iterLoop]
    by_cases hc : (env.llm st.conversationHistory).tool_calls.length > 0
    · rw [if_pos hc]
      cases hd : execCalls env st.pendingTransaction (env.llm st.conversationHistory).tool_calls [] all [] with
      | early pt r a i => simp
      | done r a i =>
        calc (iterLoop env pm fuel _ a (llm + 1) (inv ++ i) fz).2.2.llmCalls
            ≤ (llm + 1) + fuel := ih _ _ _ _ _
          _ = llm + (fuel + 1) := by omega
    · rw [if_neg hc]
      split
      · simp
      · simp

/-- Every freeze recorded by the iteration loop happened while the pending slot
was empty. -/
theorem iterLoop_freezes_none (env : Env) (pm : String) :
    ∀ fuel st all llm inv fz, (∀ x ∈ fz, x = none) →
      ∀ x ∈ (iterLoop env pm fuel st all llm inv fz).2.2.freezes, x = none := by
  intro fuel
  induction fuel with
  | zero =>
    intro st all llm inv fz hfz
    simpa [iterLoop] using hfz
  | succ fuel ih =>
    intro st all llm inv fz hfz
    simp only [iterLoop]
    by_cases hc : (env.llm st.conversationHistory).tool_calls.length > 0
    · rw [if_pos hc]
      cases hd : execCalls env st.pendingTransaction (env.llm st.conversationHistory).tool_calls [] all [] with
      | early pt r a i =>
        have hnone := execCalls_early_pending_none env st.pendingTransaction _ _ _ _ _ _ _ _ hd
        intro x hx
        simp at hx
        rcases hx with hx | hx
        · exact hfz x hx
        · rw [hx, hnone]
      | done r a i => exact ih _ _ _ _ _ hfz
    · rw [if_neg hc]
      split
      · simpa using hfz
      · simpa using hfz

/-- If no reachable model response contains a gate-triggering invocation, the
response carries no pending transaction. -/
theorem iterLoop_no_trigger (env : Env) (pm : String)
    (Hnf : ∀ h c, c ∈ (env.llm h).tool_calls → isEarlyTrigger env c = false) :
    ∀ fuel st all llm inv fz,
      (iterLoop env pm fuel st all llm inv fz).1.pendingTransaction = none := by
  intro fuel
  induction fuel with
  | zero => intro st all llm inv fz; rfl
  | succ fuel ih =>
    intro st all llm inv fz
    simp only [iterLoop]
    by_cases hc : (env.llm st.conversationHistory).tool_calls.length > 0
    · rw [if_pos hc]
      obtain ⟨r, a, i, hd⟩ := execCalls_done_of_clean env _
        (fun x hx => Hnf st.conversationHistory x hx) st.pendingTransaction [] all []
      rw [hd]
      exact ih _ _ _ _ _
    · rw [if_neg hc]
      split <;> rfl

/-- If every model response requests invocations and none triggers the gate, the
loop runs its full fuel and returns the fallback message synthesized from
the accumulated records. -/
theorem iterLoop_exhaust (env : Env) (pm : String)
    (Hne : ∀ h, (env.llm h).tool_calls ≠ [])
    (Hnf : ∀ h c, c ∈ (env.llm h).tool_calls → isEarlyTrigger env c = false) :
    ∀ fuel st all llm inv fz,
      (iterLoop env pm fuel st all llm inv fz).2.2.llmCalls = llm + fuel ∧
      (iterLoop env pm fuel st all llm inv fz).1.pendingTransaction = none ∧
      (iterLoop env pm fuel st all llm inv fz).1.message = withPrefixMsg pm
        (match (iterLoop env pm fuel st all llm inv fz).1.toolCalls with
         | some recs => generateFriendlyMessageFromToolResults recs
         | none => "我处理了你的请求，但遇到了一些问题。请重试。") := by
  intro fuel
  induction fuel with
  | zero =>
    intro st all llm inv fz
    refine ⟨rfl, rfl, ?_⟩
    by_cases hl : all.length > 0
    · simp only [iterLoop, optRecords, if_pos hl]
    · simp only [iterLoop, optRecords, if_neg hl]
  | succ fuel ih =>
    intro st all llm inv fz
    simp only [iterLoop]
    have hc : (env.llm st.conversationHistory).tool_calls.length > 0 := by
      have := Hne st.conversationHistory
      cases hcalls : (env.llm st.conversationHistory).tool_calls with
      | nil => exact absurd hcalls this
      | cons a b => simp [hcalls]
    rw [if_pos hc]
    obtain ⟨r, a, i, hd⟩ := execCalls_done_of_clean env _
      (fun x hx => Hnf st.conversationHistory x hx) st.pendingTransaction [] all []
    rw [hd]
    have h := ih ({ st with conversationHistory := st.conversationHistory ++
      [aiMessage ("Tool execution completed. Results:\n" ++ toolResultsText r)] }) a (llm + 1) (inv ++ i) fz
    refine ⟨by rw [h.1]; omega, h.2.1, h.2.2⟩

/-- One unfolding of the loop in the round-freezing case. -/
theorem iterLoop_succ_early (env : Env) (pm : String) (fuel : Nat) (st : AgentState)
    (all : List ToolCallRecord) (llm : Nat) (inv : List (String × JsValue))
    (fz : List (Option PendingTransaction)) (pt : PendingTransaction)
    (r a : List ToolCallRecord) (i : List (String × JsValue))
    (hlen : (env.llm st.conversationHistory).tool_calls.length > 0)
    (hrun : execCalls env st.pendingTransaction (env.llm st.conversationHistory).tool_calls
      [] all [] = .early pt r a i) :
    iterLoop env pm (fuel + 1) st all llm inv fz =
      (⟨withPrefixMsg pm (earlyCoreMessage pt.description), optRecords a, some pt⟩,
       { st with pendingTransaction := some pt },
       ⟨inv ++ i, llm + 1, fz ++ [st.pendingTransaction]⟩) := by
  simp only [iterLoop]
  rw [if_pos hlen, hrun]

/-- A JSON text whose first non-whitespace character is an opening brace or
bracket parses only to an object or an array; this justifies inlining the
string-branch recursion of `formatToolResult` as `formatNonString`. -/
theorem jsonParse_brace_or_bracket (s : String) (v : JsValue)
    (h : jsonParse s = some v) (hs : trimStartsBraceOrBracket s = true) :
    (∃ o, v = JsValue.vObj o) ∨ (∃ a, v = JsValue.vArr a) := by
  unfold jsonParse at h
  unfold trimStartsBraceOrBracket at hs
  cases hpv : parseValue (s.data.length + 1) s.data with
  | none => rw [hpv] at h; cases h
  | some pr =>
    rw [hpv] at h
    obtain ⟨w, r⟩ := pr
    have hv : v = w := by
      by_cases hr : dropLeadWs r = []
      · simp [hr] at h; exact h.symm
      · simp [hr] at h
    subst hv
    clear h
    simp only [parseValue] at hpv
    rcases hd : dropLeadWs s.data with _ | ⟨c, rest⟩
    · rw [hd] at hs; simp at hs
    · rw [hd] at hs hpv
      by_cases hc1 : c = '\x7b'
      · subst hc1
        simp only at hpv
        rcases hd2 : dropLeadWs rest with _ | ⟨c2, rest2⟩
        · rw [hd2] at hpv
          simp at hpv
          obtain ⟨a, -, ha⟩ := hpv
          exact Or.inl ⟨a, ha.symm⟩
        · rw [hd2] at hpv
          by_cases hc2 : c2 = '\x7d'
          · subst hc2
            simp at hpv
            exact Or.inl ⟨.nil, hpv.1.symm⟩
          · simp [hc2] at hpv
            obtain ⟨a, -, ha⟩ := hpv
            exact Or.inl ⟨a, ha.symm⟩
      · by_cases hc2 : c = '['
        · subst hc2
          simp only at hpv
          rcases hd2 : dropLeadWs rest with _ | ⟨c2, rest2⟩
          · rw [hd2] at hpv
            simp at hpv
            obtain ⟨a, -, ha⟩ := hpv
            exact Or.inr ⟨a, ha.symm⟩
          · rw [hd2] at hpv
            by_cases hc3 : c2 = ']'
            · subst hc3
              simp at hpv
              exact Or.inr ⟨.nil, hpv.1.symm⟩
            · simp [hc3] at hpv
              obtain ⟨a, -, ha⟩ := hpv
              exact Or.inr ⟨a, ha.symm⟩
        · simp [hc1, hc2] at hs

/-- C1: in `processAgentIteration`, a model-requested invocation that resolves
in the tool registry and matches the fund-moving set by substring,
encountered while no pending transaction exists (all earlier invocations of
the round being non-triggering), builds a `PendingTransaction` (name,
arguments, rendered description) and returns immediately: the response and
the state carry exactly that pending transaction, the conversation history
is untouched, the executed-invocation trace and the record list are those of
the preceding invocations alone — the gated tool is not invoked and no later
invocation of the round is processed — and only one model call was made. -/
theorem processAgentIteration_freezes_fund_moving (env : Env) (opts : IterOptions)
    (st : AgentState) (pre : List ToolCallReq) (c : ToolCallReq) (post : List ToolCallReq)
    (hpending : st.pendingTransaction = none)
    (hcalls : (env.llm st.conversationHistory).tool_calls = pre ++ c :: post)
    (hpre : ∀ x ∈ pre, isEarlyTrigger env x = false)
    (hc : isEarlyTrigger env c = true) :
    (processAgentIteration env opts st).1.pendingTransaction = some (mkPendingTransaction env c) ∧
    (processAgentIteration env opts st).2.1.pendingTransaction = some (mkPendingTransaction env c) ∧
    (processAgentIteration env opts st).2.1.conversationHistory = st.conversationHistory ∧
    (processAgentIteration env opts st).1.message = withPrefixMsg opts.prefixMessage
      (earlyCoreMessage (mkPendingTransaction env c).description) ∧
    (processAgentIteration env opts st).1.toolCalls =
      optRecords (execCalls env none pre [] opts.initialToolCalls []).allRecs ∧
    (processAgentIteration env opts st).2.2.invoked =
      (execCalls env none pre [] opts.initialToolCalls []).invokedL ∧
    (processAgentIteration env opts st).2.2.llmCalls = 1 := by
  have hc' : (findTool env c.name).isSome = true ∧ requiresConfirmation c.name = true := by
    simpa [isEarlyTrigger] using hc
  obtain ⟨r, a, i, hd, hext⟩ := execCalls_clean_extend env pre hpre [] opts.initialToolCalls []
  have hrun : execCalls env none (pre ++ c :: post) [] opts.initialToolCalls [] =
      .early (mkPendingTransaction env c) r a i := by
    rw [hext (c :: post), execCalls_head_early env c post r a i hc'.1 hc'.2]
  rw [← hpending, ← hcalls] at hrun
  have hlen : (env.llm st.conversationHistory).tool_calls.length > 0 := by
    rw [hcalls]; simp
  have hmain : processAgentIteration env opts st =
      (⟨withPrefixMsg opts.prefixMessage (earlyCoreMessage (mkPendingTransaction env c).description),
        optRecords a, some (mkPendingTransaction env c)⟩,
       { st with pendingTransaction := some (mkPendingTransaction env c) },
       ⟨[] ++ i, 0 + 1, [] ++ [st.pendingTransaction]⟩) :=
    iterLoop_succ_early env opts.prefixMessage 4 st opts.initialToolCalls 0 [] []
      (mkPendingTransaction env c) r a i hlen hrun
  rw [hmain, hd]
  simp [ExecOut.allRecs, ExecOut.invokedL]

/-- Witness for C1 at a concrete environment whose model requests a single
`native_transfer` invocation. -/
theorem processAgentIteration_freezes_fund_moving_witness :
    (processAgentIteration witnessEnvFreeze defaultIterOptions witnessState).1.pendingTransaction =
      some (mkPendingTransaction witnessEnvFreeze ⟨"native_transfer", .vUndefined⟩) ∧
    (processAgentIteration witnessEnvFreeze defaultIterOptions witnessState).2.2.invoked = [] ∧
    (processAgentIteration witnessEnvFreeze defaultIterOptions witnessState).2.2.llmCalls = 1 := by
  have h := processAgentIteration_freezes_fund_moving witnessEnvFreeze defaultIterOptions
    witnessState [] ⟨"native_transfer", .vUndefined⟩ [] rfl rfl
    (by intro x hx; cases hx) rfl
  refine ⟨h.1, ?_, h.2.2.2.2.2.2⟩
  rw [h.2.2.2.2.2.1]
  rfl

/-- C2: at most one pending transaction exists at any time: while one is
pending, neither the iteration loop nor `chat` replaces it (and the response
reports none); `cancelTransaction` always leaves the slot empty; every
freeze, in the loop and under `confirmTransaction`, happened from an empty
slot (ghost record); a pending transaction present after the loop is the old
one or the state started empty; and a pending transaction present after
`confirmTransaction` arose from the guarded loop restarted on the cleared
state. -/
theorem pendingTransaction_at_most_one (env : Env) (opts : IterOptions) (st : AgentState)
    (msg : String) (p q : PendingTransaction) :
    (st.pendingTransaction = some p →
      (processAgentIteration env opts st).2.1.pendingTransaction = some p ∧
      (processAgentIteration env opts st).1.pendingTransaction = none ∧
      (chat env msg st).2.1.pendingTransaction = some p) ∧
    ((cancelTransaction st).2.pendingTransaction = none) ∧
    (∀ x ∈ (processAgentIteration env opts st).2.2.freezes, x = none) ∧
    (∀ x ∈ (confirmTransaction env st).2.2.freezes, x = none) ∧
    ((processAgentIteration env opts st).2.1.pendingTransaction = some q →
      st.pendingTransaction = none ∨ st.pendingTransaction = some q) ∧
    ((confirmTransaction env st).2.1.pendingTransaction = some q →
      ∃ st1 opts1, st1.pendingTransaction = none ∧
        (confirmTransaction env st).2.1 = (processAgentIteration env opts1 st1).2.1) := by
  refine ⟨?_, ?_, ?_, ?_, ?_, ?_⟩
  · intro hp
    refine ⟨(iterLoop_pending_some env opts.prefixMessage p 5 st opts.initialToolCalls 0 [] [] hp).1,
      (iterLoop_pending_some env opts.prefixMessage p 5 st opts.initialToolCalls 0 [] [] hp).2, ?_⟩
    exact (iterLoop_pending_some env "" p 5
      { conversationHistory :=
          maybeSummarizeHistory env.cfg env (st.conversationHistory ++ [humanMessage msg]),
        walletAddress := st.walletAddress, pendingTransaction := st.pendingTransaction }
      [] 0 [] [] hp).1
  · cases hsp : st.pendingTransaction with
    | none => simp [cancelTransaction, hsp]
    | some pp => simp [cancelTransaction, hsp]
  · exact iterLoop_freezes_none env opts.prefixMessage 5 st opts.initialToolCalls 0 [] []
      (by intro x hx; cases hx)
  · cases hsp : st.pendingTransaction with
    | none => simp [confirmTransaction, hsp, emptyGhost]
    | some pp =>
      simp only [confirmTransaction, hsp]
      cases hf : findTool env pp.toolName with
      | none => simp [emptyGhost]
      | some tool =>
        simp only
        cases hr : (tool.run pp.toolArgs >>= fun result => formatToolResult pp.toolName result) with
        | ok f =>
          exact iterLoop_freezes_none env _ 5 _ _ 0 [] [] (by intro x hx; cases hx)
        | error e =>
          intro x hx
          simp at hx
  · intro hq
    cases hsp : st.pendingTransaction with
    | none => exact Or.inl rfl
    | some pp =>
      have h1 : (processAgentIteration env opts st).2.1.pendingTransaction = some pp :=
        (iterLoop_pending_some env opts.prefixMessage pp 5 st opts.initialToolCalls 0 [] [] hsp).1
      exact Or.inr (h1.symm.trans hq)
  · intro hq
    cases hsp : st.pendingTransaction with
    | none =>
      simp only [confirmTransaction, hsp] at hq
      simp at hq
    | some pp =>
      simp only [confirmTransaction, hsp] at hq ⊢
      cases hf : findTool env pp.toolName with
      | none =>
        simp only [hf] at hq
        cases hq
      | some tool =>
        simp only [hf] at hq ⊢
        cases hr : (tool.run pp.toolArgs >>= fun result => formatToolResult pp.toolName result) with
        | ok f =>
          simp only [hr] at hq ⊢
          exact ⟨_, _, rfl, rfl⟩
        | error e =>
          simp only [hr] at hq
          cases hq

/-- Witness for C2 at a concrete state already holding a pending transaction. -/
theorem pendingTransaction_at_most_one_witness :
    (processAgentIteration witnessEnvFreeze defaultIterOptions witnessStatePending).2.1.pendingTransaction =
      some witnessPending ∧
    (cancelTransaction witnessStatePending).2.pendingTransaction = none := by
  have h := pendingTransaction_at_most_one witnessEnvFreeze defaultIterOptions witnessStatePending
    "hi" witnessPending witnessPending
  exact ⟨(h.1 rfl).1, h.2.1⟩

/-- C3: `processAgentIteration` performs at most 5 model invocations for every
model behaviour; for models that never request a resolvable fund-moving
invocation the response carries no pending transaction; and when
additionally every response requests invocations (no final answer), the
bound of 5 is reached and the returned message is the fallback synthesized
from the accumulated tool-call records (the modelled function is total, so
no exception is raised). -/
theorem processAgentIteration_bounded (env : Env) (opts : IterOptions) (st : AgentState) :
    (processAgentIteration env opts st).2.2.llmCalls ≤ 5 ∧
    ((∀ h c, c ∈ (env.llm h).tool_calls → isEarlyTrigger env c = false) →
      (processAgentIteration env opts st).1.pendingTransaction = none) ∧
    ((∀ h, (env.llm h).tool_calls ≠ []) →
     (∀ h c, c ∈ (env.llm h).tool_calls → isEarlyTrigger env c = false) →
      (processAgentIteration env opts st).2.2.llmCalls = 5 ∧
      (processAgentIteration env opts st).1.message = withPrefixMsg opts.prefixMessage
        (match (processAgentIteration env opts st).1.toolCalls with
         | some recs => generateFriendlyMessageFromToolResults recs
         | none => "我处理了你的请求，但遇到了一些问题。请重试。")) := by
  refine ⟨?_, ?_, ?_⟩
  · exact iterLoop_llmCalls_le env opts.prefixMessage 5 st opts.initialToolCalls 0 [] []
  · intro Hnf
    exact iterLoop_no_trigger env opts.prefixMessage Hnf 5 st opts.initialToolCalls 0 [] []
  · intro Hne Hnf
    have h := iterLoop_exhaust env opts.prefixMessage Hne Hnf 5 st opts.initialToolCalls 0 [] []
    exact ⟨h.1, h.2.2⟩

/-- Witness for C3 at a concrete model that always requests one unresolvable
invocation. -/
theorem processAgentIteration_bounded_witness :
    (processAgentIteration witnessEnvLoop defaultIterOptions witnessState).2.2.llmCalls = 5 ∧
    (processAgentIteration witnessEnvLoop defaultIterOptions witnessState).1.pendingTransaction = none ∧
    (processAgentIteration witnessEnvLoop defaultIterOptions witnessState).1.message =
      "我处理了你的请求，但遇到了一些问题。请重试。" := by
  have h := processAgentIteration_bounded witnessEnvLoop defaultIterOptions witnessState
  have hne : ∀ hist, (witnessEnvLoop.llm hist).tool_calls ≠ [] := fun _ => by
    simp [witnessEnvLoop]
  have hnf : ∀ hist c, c ∈ (witnessEnvLoop.llm hist).tool_calls →
      isEarlyTrigger witnessEnvLoop c = false := by
    intro hist c hc
    simp [witnessEnvLoop] at hc
    subst hc
    rfl
  obtain ⟨h5, hmsg⟩ := h.2.2 hne hnf
  refine ⟨h5, h.2.1 hnf, ?_⟩
  rw [hmsg]
  rfl

/-- C4: with `summaryTriggerMessages = 40` and `summaryKeepMessages = 12`,
`maybeSummarizeHistory` on a conversation of more than 40 messages replaces
the history with the original system prompt, the synthetic summary system
message, and the 12 most recent messages — length exactly 2 + 12 = 14 with
the system instruction at index 0 — and when the summarization model fails
it instead produces the system prompt plus the 12 most recent messages
(length 13), never propagating the error. -/
theorem maybeSummarizeHistory_shape (env : Env) (hist : List Message)
    (h40 : hist.length > 40) :
    (∀ txt, env.summaryLLM (summaryInput ((hist.take (hist.length - 12)).drop 1)) = .ok txt →
      maybeSummarizeHistory ⟨40, 12⟩ env hist =
        systemMessage SYSTEM_PROMPT :: systemMessage ("对话摘要：\n" ++ txt) ::
          hist.drop (hist.length - 12) ∧
      (maybeSummarizeHistory ⟨40, 12⟩ env hist).length = 14 ∧
      (maybeSummarizeHistory ⟨40, 12⟩ env hist).head? = some (systemMessage SYSTEM_PROMPT)) ∧
    (∀ e, env.summaryLLM (summaryInput ((hist.take (hist.length - 12)).drop 1)) = .error e →
      maybeSummarizeHistory ⟨40, 12⟩ env hist =
        systemMessage SYSTEM_PROMPT :: hist.drop (hist.length - 12) ∧
      (maybeSummarizeHistory ⟨40, 12⟩ env hist).length = 13 ∧
      (maybeSummarizeHistory ⟨40, 12⟩ env hist).head? = some (systemMessage SYSTEM_PROMPT)) := by
  have hkeep : max 6 (Config.mk 40 12).summaryKeepMessages = 12 := rfl
  have htrig : max 10 (Config.mk 40 12).summaryTriggerMessages = 40 := rfl
  have hmidlen : ((hist.take (hist.length - 12)).drop 1).length = hist.length - 13 := by
    simp [List.length_drop, List.length_take]
    omega
  have hguards : maybeSummarizeHistory ⟨40, 12⟩ env hist =
      (match env.summaryLLM (summaryInput ((hist.take (hist.length - 12)).drop 1)) with
       | .ok txt => systemMessage SYSTEM_PROMPT :: systemMessage ("对话摘要：\n" ++ txt) ::
           hist.drop (hist.length - 12)
       | .error _ => systemMessage SYSTEM_PROMPT :: hist.drop (hist.length - 12)) := by
    simp only [maybeSummarizeHistory, hkeep, htrig]
    rw [if_neg (by omega), if_neg (by rw [hmidlen]; omega)]
  have hdroplen : (hist.drop (hist.length - 12)).length = 12 := by
    simp [List.length_drop]
    omega
  constructor
  · intro txt htxt
    rw [hguards, htxt]
    refine ⟨rfl, ?_, rfl⟩
    simp [hdroplen]
  · intro e he
    rw [hguards, he]
    refine ⟨rfl, ?_, rfl⟩
    simp [hdroplen]

/-- Witness for C4 on a concrete 41-message history. -/
theorem maybeSummarizeHistory_shape_witness :
    (maybeSummarizeHistory ⟨40, 12⟩ witnessEnvLoop witnessHistory41).length = 14 ∧
    (maybeSummarizeHistory ⟨40, 12⟩ witnessEnvLoop witnessHistory41).head? =
      some (systemMessage SYSTEM_PROMPT) := by
  have h := maybeSummarizeHistory_shape witnessEnvLoop witnessHistory41
    (by simp [witnessHistory41])
  have hok := h.1 "摘要" rfl
  exact ⟨hok.2.1, hok.2.2⟩

/-- C5: an invocation whose name matches no registered tool is silently dropped:
deleting it from the round leaves the outcome — round results, cumulative
records, executed-invocation trace, early/done status — exactly unchanged,
so it is never executed, never recorded, and no error is surfaced to the
caller or the model. -/
theorem unresolved_invocation_dropped (env : Env) (c : ToolCallReq)
    (hunres : findTool env c.name = none) :
    ∀ pending pre post res all inv,
      execCalls env pending (pre ++ c :: post) res all inv =
      execCalls env pending (pre ++ post) res all inv := by
  intro pending pre
  induction pre with
  | nil =>
    intro post res all inv
    simp only [List.nil_append, execCalls, hunres]
  | cons x pre' ih =>
    intro post res all inv
    simp only [List.cons_append, execCalls]
    cases hf : findTool env x.name with
    | none => exact ih post res all inv
    | some tool =>
      simp only
      split
      · rfl
      · split
        · exact ih post _ _ _
        · exact ih post _ _ _

/-- Witness for C5 on a concrete unresolvable invocation. -/
theorem unresolved_invocation_dropped_witness :
    execCalls witnessEnvLoop none ([] ++ witnessUnknownCall :: []) [] [] [] =
      execCalls witnessEnvLoop none ([] ++ []) [] [] [] :=
  unresolved_invocation_dropped witnessEnvLoop witnessUnknownCall rfl none [] [] [] [] []

/-- C6: a recognized, non-gated invocation whose execution throws is caught per
invocation: the string `Error: <message>` is recorded as its result in both
the round results and the cumulative record list, the invocation is traced
as executed, and the round continues with the remaining invocations — the
failure never aborts the loop. -/
theorem tool_failure_recorded (env : Env) (pending : Option PendingTransaction)
    (c : ToolCallReq) (rest : List ToolCallReq) (tool : ToolSpec) (e : String)
    (res all : List ToolCallRecord) (inv : List (String × JsValue))
    (hf : findTool env c.name = some tool)
    (hg : (requiresConfirmation c.name && pending.isNone) = false)
    (hrun : tool.run (argsOrEmpty c.args) = .error e) :
    execCalls env pending (c :: rest) res all inv =
      execCalls env pending rest (res ++ [⟨c.name, "Error: " ++ e⟩])
        (all ++ [⟨c.name, "Error: " ++ e⟩]) (inv ++ [(c.name, argsOrEmpty c.args)]) := by
  simp only [execCalls, hf, hg, Bool.false_eq_true, if_false, hrun]
  rfl

/-- Witness for C6 on a concrete failing transfer tool executed while a
transaction is already pending. -/
theorem tool_failure_recorded_witness :
    execCalls witnessEnvFreeze (some witnessPending)
        [⟨"native_transfer", JsValue.vUndefined⟩] [] [] [] =
      execCalls witnessEnvFreeze (some witnessPending) []
        [⟨"native_transfer", "Error: " ++ "insufficient funds"⟩]
        [⟨"native_transfer", "Error: " ++ "insufficient funds"⟩]
        [("native_transfer", argsOrEmpty JsValue.vUndefined)] :=
  tool_failure_recorded witnessEnvFreeze (some witnessPending)
    ⟨"native_transfer", JsValue.vUndefined⟩ [] witnessTransferTool "insufficient funds"
    [] [] [] rfl rfl rfl

/-- C7: when `confirmTransaction` runs with a pending transaction present and
the frozen invocation throws, it clears the pending record
(`hasPendingTransaction` is false afterwards), returns the error message
containing the thrown text, leaves the conversation history unchanged, and
does not resume the iteration loop (zero model calls). -/
theorem confirmTransaction_failure (env : Env) (st : AgentState) (p : PendingTransaction)
    (tool : ToolSpec) (e : String)
    (hp : st.pendingTransaction = some p)
    (hf : findTool env p.toolName = some tool)
    (hrun : tool.run p.toolArgs = .error e) :
    (confirmTransaction env st).1.message = "❌ 交易执行失败: " ++ e ∧
    (confirmTransaction env st).2.1.pendingTransaction = none ∧
    hasPendingTransaction (confirmTransaction env st).2.1 = false ∧
    (confirmTransaction env st).2.1.conversationHistory = st.conversationHistory ∧
    (confirmTransaction env st).2.2.llmCalls = 0 := by
  simp only [confirmTransaction, hp, hf, hrun]
  exact ⟨rfl, rfl, rfl, rfl, rfl⟩

/-- Witness for C7 at a concrete failing transfer tool. -/
theorem confirmTransaction_failure_witness :
    (confirmTransaction witnessEnvFreeze witnessStatePending).1.message =
      "❌ 交易执行失败: " ++ "insufficient funds" ∧
    (confirmTransaction witnessEnvFreeze witnessStatePending).2.1.pendingTransaction = none ∧
    (confirmTransaction witnessEnvFreeze witnessStatePending).2.2.llmCalls = 0 := by
  have h := confirmTransaction_failure witnessEnvFreeze witnessStatePending witnessPending
    witnessTransferTool "insufficient funds" rfl rfl rfl
  exact ⟨h.1, h.2.1, h.2.2.2.2⟩

/-- C8: `clearHistory` resets the conversation to exactly one message — the
initial system prompt — and leaves every other field unchanged: the pending
transaction and wallet address survive, so `hasPendingTransaction` returns
the same value before and after. -/
theorem clearHistory_resets_history_only (st : AgentState) :
    (clearHistory st).conversationHistory = [systemMessage SYSTEM_PROMPT] ∧
    (clearHistory st).pendingTransaction = st.pendingTransaction ∧
    (clearHistory st).walletAddress = st.walletAddress ∧
    hasPendingTransaction (clearHistory st) = hasPendingTransaction st :=
  ⟨rfl, rfl, rfl, rfl⟩

/-- C9: `formatToolResult` is total: for every tool name and every value of the
modelled JavaScript universe — malformed non-JSON string, JSON string,
arbitrary object or array, null, number — it terminates and returns `.ok`
with a string; no throw escapes (the one throwing operation, `JSON.parse`,
is caught locally, and the string-branch recursion bottoms out because a
brace-led text parses only to an object or array). -/
theorem formatToolResult_total (toolName : String) (v : JsValue) :
    ∃ s, formatToolResult toolName v = .ok s := by
  cases v with
  | vStr s =>
    simp only [formatToolResult]
    by_cases hb : trimStartsBraceOrBracket s = true
    · rw [if_pos hb]
      cases hp : jsonParse s with
      | none => exact ⟨s, rfl⟩
      | some parsed => exact ⟨formatNonString toolName parsed, rfl⟩
    · rw [if_neg hb]
      exact ⟨s, rfl⟩
  | vNull => exact ⟨_, rfl⟩
  | vUndefined => exact ⟨_, rfl⟩
  | vBool b => exact ⟨_, rfl⟩
  | vNum m e => exact ⟨_, rfl⟩
  | vArr a => exact ⟨_, rfl⟩
  | vObj o => exact ⟨_, rfl⟩

/-- C10: when `confirmTransaction` finds a pending transaction whose tool name
no longer resolves to a registered tool, it clears the pending record and
returns the fixed message without executing anything (empty invocation
trace), without invoking the model, and without modifying the conversation
history. -/
theorem confirmTransaction_unresolved_tool (env : Env) (st : AgentState) (p : PendingTransaction)
    (hp : st.pendingTransaction = some p)
    (hf : findTool env p.toolName = none) :
    (confirmTransaction env st).1.message = "找不到对应的交易工具。" ∧
    (confirmTransaction env st).2.1.pendingTransaction = none ∧
    (confirmTransaction env st).2.1.conversationHistory = st.conversationHistory ∧
    (confirmTransaction env st).2.2.invoked = [] ∧
    (confirmTransaction env st).2.2.llmCalls = 0 := by
  simp [confirmTransaction, hp, hf, emptyGhost]

/-- Witness for C10 at a concrete pending transaction naming an unregistered
tool. -/
theorem confirmTransaction_unresolved_tool_witness :
    (confirmTransaction witnessEnvFreeze witnessStateGhost).1.message = "找不到对应的交易工具。" ∧
    (confirmTransaction witnessEnvFreeze witnessStateGhost).2.1.pendingTransaction = none := by
  have h := confirmTransaction_unresolved_tool witnessEnvFreeze witnessStateGhost
    witnessPendingGhostTool rfl rfl
  exact ⟨h.1, h.2.1⟩
